import Mathlib

open scoped Classical

/-!
Verification development for the adaptive tesseroid discretization engine
of the harmonica forward-modelling package (`harmonica/forward/tesseroid.py`).

The engine's source module is not part of the provided tree (only its test
suite `harmonica/forward/tests/test_tesseroid.py` is), so the definitions
below are modelled from the specification's data model (§3), component
design (§4, including the pseudocode of §4.3) and error-handling design
(§7).  Real-valued arithmetic is modelled with `ℝ`; the fixed-capacity
numpy buffers are modelled as total maps indexed by `ℤ` (the stack) and
`ℕ` (the output buffer) together with explicit capacity parameters, so
that out-of-bounds behaviour can be stated exactly.
-/

/-- Modelled from the spec: a tesseroid is an ordered 6-tuple of doubles
`(west, east, south, north, bottom, top)` (§3). -/
structure Tesseroid where
  w : ℝ
  e : ℝ
  s : ℝ
  n : ℝ
  bottom : ℝ
  top : ℝ

instance : Inhabited Tesseroid := ⟨⟨0, 0, 0, 0, 0, 0⟩⟩

/-- Modelled from the spec: an observation point is a 3-tuple
`(longitude, latitude, radius)` (§3). -/
structure Point where
  lon : ℝ
  lat : ℝ
  radius : ℝ

/-- Degrees to radians conversion used throughout the geometry metrics. -/
noncomputable def radians (x : ℝ) : ℝ := x * Real.pi / 180

/-- Modelled from the spec: the tesseroid's geometric center
`(center_lon, center_lat, center_radius)`, where `center_radius =
(bottom+top)/2` and `center_lon/lat` are the midpoints of the angular
bounds (§4.1). -/
noncomputable def _tesseroid_center (t : Tesseroid) : ℝ × ℝ × ℝ :=
  ((t.w + t.e) / 2, (t.s + t.n) / 2, (t.bottom + t.top) / 2)

/-- Cosine of the angular separation ψ between the observation point and
a center at `(lonC, latC)` (spherical law of cosines, §4.1). -/
noncomputable def cosPsi (p : Point) (lonC latC : ℝ) : ℝ :=
  Real.sin (radians p.lat) * Real.sin (radians latC) +
    Real.cos (radians p.lat) * Real.cos (radians latC) *
      Real.cos (radians lonC - radians p.lon)

/-- Modelled from the spec: chord distance between the observation point
and the tesseroid's geometric center,
`d = sqrt(r1² + r2² − 2·r1·r2·cos(ψ))`, with the radicand clamped to
`≥ 0` (§4.1). -/
noncomputable def _distance_tesseroid_point (p : Point) (t : Tesseroid) : ℝ :=
  let c := _tesseroid_center t
  Real.sqrt (max 0
    (p.radius ^ 2 + c.2.2 ^ 2 - 2 * p.radius * c.2.2 * cosPsi p c.1 c.2.1))

/-- Modelled from the spec: tesseroid dimensions, arc lengths evaluated at
the top radius: `L_lon = top·radians(east − west)`,
`L_lat = top·radians(north − south)`, `L_rad = top − bottom` (§4.1). -/
noncomputable def _tesseroid_dimensions (t : Tesseroid) : ℝ × ℝ × ℝ :=
  (t.top * radians (t.e - t.w), t.top * radians (t.n - t.s), t.top - t.bottom)

/-- Modelled from the spec: the (at most 2) sub-intervals of one axis for a
split factor `k ∈ {1, 2}`; a bisected axis is cut at the exact midpoint
(§4.2). -/
noncomputable def splitIntervals (a b : ℝ) (k : ℕ) : List (ℝ × ℝ) :=
  if k = 2 then [(a, (a + b) / 2), ((a + b) / 2, b)] else [(a, b)]

/-- Modelled from the spec: the Cartesian product of the per-axis
sub-intervals — up to 8 sub-tesseroids (§4.2). -/
noncomputable def splitChildren (t : Tesseroid) (nlon nlat nrad : ℕ) : List Tesseroid :=
  (splitIntervals t.w t.e nlon).flatMap fun ilon =>
    (splitIntervals t.s t.n nlat).flatMap fun ilat =>
      (splitIntervals t.bottom t.top nrad).map fun irad =>
        ⟨ilon.1, ilon.2, ilat.1, ilat.2, irad.1, irad.2⟩

/-- Push a list of tesseroids onto the stack, one slot per item starting at
`top + 1`; returns the written stack and the new top index. -/
noncomputable def pushList (stack : ℤ → Tesseroid) (top : ℤ) : List Tesseroid → (ℤ → Tesseroid) × ℤ
  | [] => (stack, top)
  | t :: rest => pushList (Function.update stack (top + 1) t) (top + 1) rest

/-- Modelled from the spec: `split_tesseroid` pushes the Cartesian product
of per-axis sub-intervals onto `stack` starting at `stack_top + 1`,
incrementing the top once per pushed item, and returns the new top (§4.2). -/
noncomputable def _split_tesseroid (t : Tesseroid) (nlon nlat nrad : ℕ)
    (stack : ℤ → Tesseroid) (stackTop : ℤ) : (ℤ → Tesseroid) × ℤ :=
  pushList stack stackTop (splitChildren t nlon nlat nrad)

/-- Modelled from the spec: the per-axis split decision of the control
loop, `2` (bisect) when `distance / size < distance_size_ratio`, else `1`
(§4.3). -/
noncomputable def splitFactor (ratio distance size : ℝ) : ℕ :=
  if distance / size < ratio then 2 else 1

/-- The mutable state of the control loop: the stack buffer with its top
index (`-1` = empty), the output buffer and the accepted count (§4.3). -/
structure DiscState where
  stack : ℤ → Tesseroid
  stackTop : ℤ
  small : ℕ → Tesseroid
  nSplits : ℕ

/-- Final outcome of `_adaptive_discretization`: the accepted count, the
error code (`0` success, `-1` stack overflow, `-2` output overflow, §7)
and the final contents of the two buffers. -/
structure DiscResult where
  nSplits : ℕ
  errorCode : ℤ
  stack : ℤ → Tesseroid
  small : ℕ → Tesseroid

/-- Result of one iteration of the control loop: either the function
returns (success or overflow), or the loop continues in a new state. -/
inductive StepResult where
  | finished (r : DiscResult)
  | next (st : DiscState)

/-- Modelled from the spec: one iteration of the §4.3 control loop.  Pop
the top tesseroid; mark the per-axis split factors (the radial axis only
in 3D mode); either accept it into the output buffer or split it onto the
stack, in both cases checking the fixed capacity before writing (§7):
`-1` when the split work-list would exceed the stack capacity, `-2` when
the accepted pieces would exceed the output capacity. -/
noncomputable def adaptiveStep (p : Point) (ratio : ℝ) (scap mcap : ℕ)
    (rad : Bool) (st : DiscState) : StepResult :=
  if st.stackTop < 0 then
    .finished ⟨st.nSplits, 0, st.stack, st.small⟩
  else
    let t := st.stack st.stackTop
    let top1 := st.stackTop - 1
    let distance := _distance_tesseroid_point p t
    let dims := _tesseroid_dimensions t
    let nlon := splitFactor ratio distance dims.1
    let nlat := splitFactor ratio distance dims.2.1
    let nrad := if rad = true then splitFactor ratio distance dims.2.2 else 1
    if nlon = 1 ∧ nlat = 1 ∧ nrad = 1 then
      if mcap ≤ st.nSplits then
        .finished ⟨st.nSplits, -2, st.stack, st.small⟩
      else
        .next ⟨st.stack, top1, Function.update st.small st.nSplits t, st.nSplits + 1⟩
    else
      if (scap : ℤ) ≤ top1 + (nlon * nlat * nrad : ℕ) then
        .finished ⟨st.nSplits, -1, st.stack, st.small⟩
      else
        let res := _split_tesseroid t nlon nlat nrad st.stack top1
        .next ⟨res.1, res.2, st.small, st.nSplits⟩

/-- The §4.3 while loop, with an explicit fuel parameter; `none` means the
fuel ran out (shown below never to happen for the fuel used by
`_adaptive_discretization`). -/
noncomputable def adaptiveLoop (p : Point) (ratio : ℝ) (scap mcap : ℕ)
    (rad : Bool) : ℕ → DiscState → Option DiscResult
  | 0, _ => none
  | fuel + 1, st =>
    match adaptiveStep p ratio scap mcap rad st with
    | .finished r => some r
    | .next st' => adaptiveLoop p ratio scap mcap rad fuel st'

/-- Modelled from the spec: `_adaptive_discretization` seeds the stack
with exactly the input tesseroid at index 0 (`stack_top = 0`), runs the
§4.3 loop and returns the accepted count with the error code; the two
fixed-capacity buffers (capacities `scap` and `mcap`) are mutated in
place, which is modelled by returning their final contents.  The fuel
`2*mcap + scap + 2` is sufficient (proved below), so `none` is never
returned. -/
noncomputable def _adaptive_discretization (p : Point) (t : Tesseroid) (ratio : ℝ)
    (scap mcap : ℕ) (stack : ℤ → Tesseroid) (small : ℕ → Tesseroid)
    (rad : Bool) : Option DiscResult :=
  adaptiveLoop p ratio scap mcap rad (2 * mcap + scap + 2)
    ⟨Function.update stack 0 t, 0, small, 0⟩

/-! ### Basic properties of the splitter -/

theorem splitIntervals_one (a b : ℝ) : splitIntervals a b 1 = [(a, b)] := by
  simp [splitIntervals]

theorem splitIntervals_two (a b : ℝ) :
    splitIntervals a b 2 = [(a, (a + b) / 2), ((a + b) / 2, b)] := by
  simp [splitIntervals]

theorem pushList_top (l : List Tesseroid) (stack : ℤ → Tesseroid) (top : ℤ) :
    (pushList stack top l).2 = top + l.length := by
  induction l generalizing stack top with
  | nil => simp [pushList]
  | cons t rest ih =>
    simp only [pushList, ih, List.length_cons]
    push_cast
    ring

theorem pushList_frame (l : List Tesseroid) (stack : ℤ → Tesseroid) (top : ℤ)
    (i : ℤ) (h : i ≤ top ∨ top + l.length < i) :
    (pushList stack top l).1 i = stack i := by
  induction l generalizing stack top with
  | nil => simp [pushList]
  | cons t rest ih =>
    have hne : i ≠ top + 1 := by
      rcases h with h | h
      · omega
      · simp only [List.length_cons] at h
        push_cast at h
        omega
    have h' : i ≤ top + 1 ∨ top + 1 + rest.length < i := by
      rcases h with h | h
      · exact Or.inl (by omega)
      · simp only [List.length_cons] at h
        push_cast at h
        right
        omega
    have hstep : pushList stack top (t :: rest) =
        pushList (Function.update stack (top + 1) t) (top + 1) rest := rfl
    rw [hstep, ih _ _ h']
    simp [Function.update_apply, hne]

theorem pushList_get (l : List Tesseroid) (stack : ℤ → Tesseroid) (top : ℤ)
    (j : ℕ) (hj : j < l.length) :
    (pushList stack top l).1 (top + 1 + j) = l.getD j default := by
  induction l generalizing stack top j with
  | nil => simp at hj
  | cons t rest ih =>
    cases j with
    | zero =>
      have : (pushList (Function.update stack (top + 1) t) (top + 1) rest).1 (top + 1) =
          Function.update stack (top + 1) t (top + 1) :=
        pushList_frame rest _ (top + 1) (top + 1) (Or.inl le_rfl)
      simpa [pushList] using this
    | succ j =>
      simp only [List.length_cons, Nat.add_lt_add_iff_right] at hj
      have := ih (Function.update stack (top + 1) t) (top + 1) j hj
      have harith : top + 1 + ((j : ℤ) + 1) = top + 1 + 1 + j := by ring
      simp only [pushList, List.getD_cons_succ]
      push_cast
      rw [harith]
      exact this

/-! ### Bounds on the angular-separation cosine -/

theorem cosPsi_le_one (p : Point) (lonC latC : ℝ) : cosPsi p lonC latC ≤ 1 := by
  unfold cosPsi
  set a := radians p.lat
  set b := radians latC
  set d := radians lonC - radians p.lon
  have hK : Real.cos (a - b) = Real.cos a * Real.cos b + Real.sin a * Real.sin b :=
    Real.cos_sub a b
  have hM : Real.cos (a + b) = Real.cos a * Real.cos b - Real.sin a * Real.sin b :=
    Real.cos_add a b
  have h1 : 0 ≤ 1 - Real.cos (a - b) := by linarith [Real.cos_le_one (a - b)]
  have h2 : 0 ≤ 1 + Real.cos (a + b) := by linarith [Real.neg_one_le_cos (a + b)]
  have h3 : 0 ≤ 1 + Real.cos d := by linarith [Real.neg_one_le_cos d]
  have h4 : 0 ≤ 1 - Real.cos d := by linarith [Real.cos_le_one d]
  nlinarith [mul_nonneg h1 h3, mul_nonneg h2 h4]

theorem neg_one_le_cosPsi (p : Point) (lonC latC : ℝ) : -1 ≤ cosPsi p lonC latC := by
  unfold cosPsi
  set a := radians p.lat
  set b := radians latC
  set d := radians lonC - radians p.lon
  have hK : Real.cos (a - b) = Real.cos a * Real.cos b + Real.sin a * Real.sin b :=
    Real.cos_sub a b
  have hM : Real.cos (a + b) = Real.cos a * Real.cos b - Real.sin a * Real.sin b :=
    Real.cos_add a b
  have h1 : 0 ≤ 1 + Real.cos (a - b) := by linarith [Real.neg_one_le_cos (a - b)]
  have h2 : 0 ≤ 1 - Real.cos (a + b) := by linarith [Real.cos_le_one (a + b)]
  have h3 : 0 ≤ 1 + Real.cos d := by linarith [Real.neg_one_le_cos d]
  have h4 : 0 ≤ 1 - Real.cos d := by linarith [Real.cos_le_one d]
  nlinarith [mul_nonneg h1 h3, mul_nonneg h2 h4]

/-! ### The distance metric -/

theorem radians_sub (a b : ℝ) : radians a - radians b = radians (a - b) := by
  unfold radians
  ring

theorem radians_zero : radians 0 = 0 := by
  simp [radians]

theorem dist_eq_sqrt_radicand (p : Point) (t : Tesseroid) :
    _distance_tesseroid_point p t =
      Real.sqrt (max 0
        (p.radius ^ 2 + ((t.bottom + t.top) / 2) ^ 2 -
          2 * p.radius * ((t.bottom + t.top) / 2) *
            cosPsi p ((t.w + t.e) / 2) ((t.s + t.n) / 2))) := rfl

theorem cosPsi_eq_one_of_aligned (p : Point) (lonC latC : ℝ)
    (hlon : p.lon = lonC) (hlat : p.lat = latC) : cosPsi p lonC latC = 1 := by
  unfold cosPsi
  rw [hlon, hlat, sub_self, Real.cos_zero, mul_one]
  have := Real.sin_sq_add_cos_sq (radians latC)
  nlinarith [this]

theorem dist_of_aligned (p : Point) (t : Tesseroid)
    (hlon : p.lon = (t.w + t.e) / 2) (hlat : p.lat = (t.s + t.n) / 2) :
    _distance_tesseroid_point p t = |p.radius - (t.bottom + t.top) / 2| := by
  rw [dist_eq_sqrt_radicand, cosPsi_eq_one_of_aligned p _ _ hlon hlat]
  have h : p.radius ^ 2 + ((t.bottom + t.top) / 2) ^ 2 -
      2 * p.radius * ((t.bottom + t.top) / 2) * 1 =
      (p.radius - (t.bottom + t.top) / 2) ^ 2 := by ring
  rw [h, max_eq_right (sq_nonneg _), Real.sqrt_sq_eq_abs]

theorem cosPsi_equator (p : Point) (lonC : ℝ) (hlat : p.lat = 0) :
    cosPsi p lonC 0 = Real.cos (radians (lonC - p.lon)) := by
  unfold cosPsi
  rw [hlat, radians_zero, Real.sin_zero, Real.cos_zero, radians_sub]
  ring

/-! ### Split-decision lemmas -/

theorem splitFactor_eq_one {ratio distance size : ℝ} (hsize : 0 < size)
    (h : ratio * size ≤ distance) : splitFactor ratio distance size = 1 := by
  unfold splitFactor
  rw [if_neg]
  rw [not_lt, le_div_iff₀ hsize]
  exact h

theorem splitFactor_eq_two {ratio distance size : ℝ} (hsize : 0 < size)
    (h : distance < ratio * size) : splitFactor ratio distance size = 2 := by
  unfold splitFactor
  rw [if_pos]
  rw [div_lt_iff₀ hsize]
  exact h

theorem splitFactor_mem {ratio distance size : ℝ} :
    splitFactor ratio distance size = 1 ∨ splitFactor ratio distance size = 2 := by
  unfold splitFactor
  split <;> simp

theorem splitFactor_mono {q1 q2 distance size : ℝ} (h : q1 ≤ q2) :
    splitFactor q1 distance size ≤ splitFactor q2 distance size := by
  unfold splitFactor
  by_cases h1 : distance / size < q1
  · rw [if_pos h1, if_pos (lt_of_lt_of_le h1 h)]
  · rw [if_neg h1]
    split <;> omega

theorem splitFactor_antitone_distance {q d1 d2 size : ℝ} (hsize : 0 < size)
    (h : d1 ≤ d2) : splitFactor q d2 size ≤ splitFactor q d1 size := by
  unfold splitFactor
  by_cases h2 : d2 / size < q
  · have hdiv : d1 / size ≤ d2 / size := by gcongr
    rw [if_pos h2, if_pos (lt_of_le_of_lt hdiv h2)]
  · rw [if_neg h2]
    split <;> omega

theorem splitChildren_length (t : Tesseroid) {nlon nlat nrad : ℕ}
    (h1 : nlon = 1 ∨ nlon = 2) (h2 : nlat = 1 ∨ nlat = 2) (h3 : nrad = 1 ∨ nrad = 2) :
    (splitChildren t nlon nlat nrad).length = nlon * nlat * nrad := by
  rcases h1 with h | h <;> rcases h2 with h' | h' <;> rcases h3 with h'' | h'' <;>
    subst h <;> subst h' <;> subst h'' <;> simp [splitChildren, splitIntervals]

theorem split_tesseroid_top (t : Tesseroid) {nlon nlat nrad : ℕ}
    (h1 : nlon = 1 ∨ nlon = 2) (h2 : nlat = 1 ∨ nlat = 2) (h3 : nrad = 1 ∨ nrad = 2)
    (stack : ℤ → Tesseroid) (stackTop : ℤ) :
    (_split_tesseroid t nlon nlat nrad stack stackTop).2 =
      stackTop + (nlon * nlat * nrad : ℕ) := by
  unfold _split_tesseroid
  rw [pushList_top, splitChildren_length t h1 h2 h3]

theorem split_tesseroid_frame (t : Tesseroid) {nlon nlat nrad : ℕ}
    (h1 : nlon = 1 ∨ nlon = 2) (h2 : nlat = 1 ∨ nlat = 2) (h3 : nrad = 1 ∨ nrad = 2)
    (stack : ℤ → Tesseroid) (stackTop : ℤ) (i : ℤ)
    (h : i ≤ stackTop ∨ stackTop + (nlon * nlat * nrad : ℕ) < i) :
    (_split_tesseroid t nlon nlat nrad stack stackTop).1 i = stack i := by
  unfold _split_tesseroid
  refine pushList_frame _ _ _ _ ?_
  rwa [splitChildren_length t h1 h2 h3]

/-! ### Loop unfolding -/

theorem adaptiveLoop_succ_finished {p : Point} {ratio : ℝ} {scap mcap : ℕ}
    {rad : Bool} {st : DiscState} {r : DiscResult}
    (h : adaptiveStep p ratio scap mcap rad st = .finished r) (fuel : ℕ) :
    adaptiveLoop p ratio scap mcap rad (fuel + 1) st = some r := by
  simp [adaptiveLoop, h]

theorem adaptiveLoop_succ_next {p : Point} {ratio : ℝ} {scap mcap : ℕ}
    {rad : Bool} {st st' : DiscState}
    (h : adaptiveStep p ratio scap mcap rad st = .next st') (fuel : ℕ) :
    adaptiveLoop p ratio scap mcap rad (fuel + 1) st =
      adaptiveLoop p ratio scap mcap rad fuel st' := by
  simp [adaptiveLoop, h]

/-- Exhaustive description of one loop iteration: the four §4.3/§7
behaviours (empty-stack return, output-overflow return, accept,
stack-overflow return or push of the split pieces). -/
theorem adaptiveStep_spec (p : Point) (ratio : ℝ) (scap mcap : ℕ) (rad : Bool)
    (st : DiscState) :
    (st.stackTop < 0 ∧
      adaptiveStep p ratio scap mcap rad st =
        .finished ⟨st.nSplits, 0, st.stack, st.small⟩) ∨
    (0 ≤ st.stackTop ∧ mcap ≤ st.nSplits ∧
      adaptiveStep p ratio scap mcap rad st =
        .finished ⟨st.nSplits, -2, st.stack, st.small⟩) ∨
    (0 ≤ st.stackTop ∧ st.nSplits < mcap ∧
      adaptiveStep p ratio scap mcap rad st =
        .next ⟨st.stack, st.stackTop - 1,
          Function.update st.small st.nSplits (st.stack st.stackTop),
          st.nSplits + 1⟩) ∨
    (∃ nlon nlat nrad : ℕ,
      (nlon = 1 ∨ nlon = 2) ∧ (nlat = 1 ∨ nlat = 2) ∧ (nrad = 1 ∨ nrad = 2) ∧
      (rad = false → nrad = 1) ∧ 2 ≤ nlon * nlat * nrad ∧ 0 ≤ st.stackTop ∧
      (((scap : ℤ) ≤ st.stackTop - 1 + (nlon * nlat * nrad : ℕ) ∧
        adaptiveStep p ratio scap mcap rad st =
          .finished ⟨st.nSplits, -1, st.stack, st.small⟩) ∨
       (st.stackTop - 1 + (nlon * nlat * nrad : ℕ) < scap ∧
        adaptiveStep p ratio scap mcap rad st =
          .next ⟨(_split_tesseroid (st.stack st.stackTop) nlon nlat nrad
              st.stack (st.stackTop - 1)).1,
            st.stackTop - 1 + (nlon * nlat * nrad : ℕ), st.small, st.nSplits⟩))) := by
  by_cases h0 : st.stackTop < 0
  · refine Or.inl ⟨h0, ?_⟩
    unfold adaptiveStep
    rw [if_pos h0]
  · have h0' : 0 ≤ st.stackTop := not_lt.1 h0
    set t := st.stack st.stackTop with ht
    set d := _distance_tesseroid_point p t with hd
    set dims := _tesseroid_dimensions t with hdims
    set nlon := splitFactor ratio d dims.1 with hnlon
    set nlat := splitFactor ratio d dims.2.1 with hnlat
    set nrad := (if rad = true then splitFactor ratio d dims.2.2 else 1) with hnrad
    have hstep : adaptiveStep p ratio scap mcap rad st =
        (if nlon = 1 ∧ nlat = 1 ∧ nrad = 1 then
          if mcap ≤ st.nSplits then
            .finished ⟨st.nSplits, -2, st.stack, st.small⟩
          else
            .next ⟨st.stack, st.stackTop - 1,
              Function.update st.small st.nSplits t, st.nSplits + 1⟩
        else if (scap : ℤ) ≤ st.stackTop - 1 + (nlon * nlat * nrad : ℕ) then
          .finished ⟨st.nSplits, -1, st.stack, st.small⟩
        else
          .next ⟨(_split_tesseroid t nlon nlat nrad st.stack (st.stackTop - 1)).1,
            (_split_tesseroid t nlon nlat nrad st.stack (st.stackTop - 1)).2,
            st.small, st.nSplits⟩) := by
      unfold adaptiveStep
      rw [if_neg h0]
    have hlon12 : nlon = 1 ∨ nlon = 2 := splitFactor_mem
    have hlat12 : nlat = 1 ∨ nlat = 2 := splitFactor_mem
    have hrad12 : nrad = 1 ∨ nrad = 2 := by
      rw [hnrad]
      cases rad
      · simp
      · simpa using splitFactor_mem
    have hradf : rad = false → nrad = 1 := by
      intro hf
      rw [hnrad, hf]
      simp
    by_cases hacc : nlon = 1 ∧ nlat = 1 ∧ nrad = 1
    · by_cases hm : mcap ≤ st.nSplits
      · refine Or.inr (Or.inl ⟨h0', hm, ?_⟩)
        rw [hstep, if_pos hacc, if_pos hm]
      · refine Or.inr (Or.inr (Or.inl ⟨h0', not_le.1 hm, ?_⟩))
        rw [hstep, if_pos hacc, if_neg hm]
    · have hk2 : 2 ≤ nlon * nlat * nrad := by
        rcases hlon12 with h1 | h1 <;> rcases hlat12 with h2 | h2 <;>
          rcases hrad12 with h3 | h3 <;>
          rw [h1, h2, h3] <;> first
            | (exfalso; exact hacc ⟨h1, h2, h3⟩)
            | norm_num
      refine Or.inr (Or.inr (Or.inr ⟨nlon, nlat, nrad, hlon12, hlat12, hrad12,
        hradf, hk2, h0', ?_⟩))
      by_cases hov : (scap : ℤ) ≤ st.stackTop - 1 + (nlon * nlat * nrad : ℕ)
      · refine Or.inl ⟨hov, ?_⟩
        rw [hstep, if_neg hacc, if_pos hov]
      · refine Or.inr ⟨not_le.1 hov, ?_⟩
        rw [hstep, if_neg hacc, if_neg hov,
          split_tesseroid_top t hlon12 hlat12 hrad12 st.stack (st.stackTop - 1)]

/-- Loop-level invariant: a returned result carries one of the three §7
error codes, and no slot at or beyond either buffer's capacity is ever
written (§7: overflow is detected before the write). -/
theorem adaptiveLoop_inv (p : Point) (ratio : ℝ) (scap mcap : ℕ) (rad : Bool) :
    ∀ (fuel : ℕ) (st : DiscState) (r : DiscResult),
      adaptiveLoop p ratio scap mcap rad fuel st = some r →
      (r.errorCode = 0 ∨ r.errorCode = -1 ∨ r.errorCode = -2) ∧
      (∀ i : ℤ, (scap : ℤ) ≤ i → r.stack i = st.stack i) ∧
      (∀ j : ℕ, mcap ≤ j → r.small j = st.small j) := by
  intro fuel
  induction fuel with
  | zero => intro st r h; simp [adaptiveLoop] at h
  | succ fuel ih =>
    intro st r h
    rcases adaptiveStep_spec p ratio scap mcap rad st with
      ⟨_, hs⟩ | ⟨_, _, hs⟩ | ⟨_, hm, hs⟩ |
      ⟨nlon, nlat, nrad, h1, h2, h3, _, hk2, h0, ⟨_, hs⟩ | ⟨hlt, hs⟩⟩
    · rw [adaptiveLoop_succ_finished hs] at h
      cases h
      exact ⟨Or.inl rfl, fun _ _ => rfl, fun _ _ => rfl⟩
    · rw [adaptiveLoop_succ_finished hs] at h
      cases h
      exact ⟨Or.inr (Or.inr rfl), fun _ _ => rfl, fun _ _ => rfl⟩
    · rw [adaptiveLoop_succ_next hs] at h
      obtain ⟨herr, hstack, hsmall⟩ := ih _ r h
      refine ⟨herr, fun i hi => hstack i hi, fun j hj => ?_⟩
      rw [hsmall j hj]
      have : j ≠ st.nSplits := by omega
      simp [Function.update_apply, this]
    · rw [adaptiveLoop_succ_finished hs] at h
      cases h
      exact ⟨Or.inr (Or.inl rfl), fun _ _ => rfl, fun _ _ => rfl⟩
    · rw [adaptiveLoop_succ_next hs] at h
      obtain ⟨herr, hstack, hsmall⟩ := ih _ r h
      refine ⟨herr, fun i hi => ?_, fun j hj => hsmall j hj⟩
      rw [hstack i hi]
      exact split_tesseroid_frame _ h1 h2 h3 _ _ i (Or.inr (by omega))

/-- The termination measure of the §4.3 loop: accepted-count headroom
(twice) plus stack headroom. -/
def loopMeasure (scap mcap : ℕ) (st : DiscState) : ℕ :=
  2 * (mcap - st.nSplits) + ((scap : ℤ) + 1 - st.stackTop).toNat

/-- The loop completes (returns) whenever the fuel exceeds the measure:
every iteration either returns or strictly decreases the measure. -/
theorem adaptiveLoop_isSome (p : Point) (ratio : ℝ) (scap mcap : ℕ) (rad : Bool) :
    ∀ (fuel : ℕ) (st : DiscState),
      st.stackTop ≤ (scap : ℤ) → st.nSplits ≤ mcap →
      loopMeasure scap mcap st < fuel →
      (adaptiveLoop p ratio scap mcap rad fuel st).isSome := by
  intro fuel
  induction fuel with
  | zero => intro st htop hn hμ; omega
  | succ fuel ih =>
    intro st htop hn hμ
    rcases adaptiveStep_spec p ratio scap mcap rad st with
      ⟨_, hs⟩ | ⟨_, _, hs⟩ | ⟨_, hm, hs⟩ |
      ⟨nlon, nlat, nrad, h1, h2, h3, _, hk2, h0, ⟨_, hs⟩ | ⟨hlt, hs⟩⟩
    · rw [adaptiveLoop_succ_finished hs]; rfl
    · rw [adaptiveLoop_succ_finished hs]; rfl
    · rw [adaptiveLoop_succ_next hs]
      refine ih _ ?_ ?_ ?_
      · show st.stackTop - 1 ≤ (scap : ℤ)
        omega
      · show st.nSplits + 1 ≤ mcap
        omega
      · simp only [loopMeasure] at hμ ⊢
        show 2 * (mcap - (st.nSplits + 1)) +
            ((scap : ℤ) + 1 - (st.stackTop - 1)).toNat < fuel
        omega
    · rw [adaptiveLoop_succ_finished hs]; rfl
    · rw [adaptiveLoop_succ_next hs]
      refine ih _ ?_ ?_ ?_
      · show st.stackTop - 1 + (nlon * nlat * nrad : ℕ) ≤ (scap : ℤ)
        omega
      · show st.nSplits ≤ mcap
        omega
      · simp only [loopMeasure] at hμ ⊢
        show 2 * (mcap - st.nSplits) +
            ((scap : ℤ) + 1 - (st.stackTop - 1 + (nlon * nlat * nrad : ℕ))).toNat < fuel
        omega

/-- `_adaptive_discretization` always returns: the fuel `2*mcap + scap + 2`
exceeds the initial measure. -/
theorem _adaptive_discretization_isSome (p : Point) (t : Tesseroid) (ratio : ℝ)
    (scap mcap : ℕ) (stack : ℤ → Tesseroid) (small : ℕ → Tesseroid) (rad : Bool) :
    ∃ r : DiscResult,
      _adaptive_discretization p t ratio scap mcap stack small rad = some r := by
  have h := adaptiveLoop_isSome p ratio scap mcap rad (2 * mcap + scap + 2)
    ⟨Function.update stack 0 t, 0, small, 0⟩ (by simp) (by simp) ?_
  · unfold _adaptive_discretization
    exact Option.isSome_iff_exists.1 h
  · simp only [loopMeasure]
    omega

/-- Every child produced with radial split factor 1 keeps the parent's
radial bounds. -/
theorem splitChildren_bottom_top (t : Tesseroid) (nlon nlat : ℕ) {c : Tesseroid}
    (hc : c ∈ splitChildren t nlon nlat 1) :
    c.bottom = t.bottom ∧ c.top = t.top := by
  unfold splitChildren at hc
  rw [splitIntervals_one] at hc
  simp only [List.mem_flatMap, List.mem_map, List.mem_singleton] at hc
  obtain ⟨il, _, ia, _, ir, hir, hceq⟩ := hc
  subst hir
  subst hceq
  exact ⟨rfl, rfl⟩

/-- In 2D mode (`radial_discretization = false`) the loop preserves the
radial bounds of every live stack slot and every accepted piece. -/
theorem adaptiveLoop_keeps_radial (p : Point) (ratio : ℝ) (scap mcap : ℕ)
    (B T : ℝ) :
    ∀ (fuel : ℕ) (st : DiscState) (r : DiscResult),
      adaptiveLoop p ratio scap mcap false fuel st = some r →
      (∀ i : ℤ, 0 ≤ i → i ≤ st.stackTop →
        (st.stack i).bottom = B ∧ (st.stack i).top = T) →
      (∀ j : ℕ, j < st.nSplits →
        (st.small j).bottom = B ∧ (st.small j).top = T) →
      ∀ j : ℕ, j < r.nSplits → (r.small j).bottom = B ∧ (r.small j).top = T := by
  intro fuel
  induction fuel with
  | zero => intro st r h; simp [adaptiveLoop] at h
  | succ fuel ih =>
    intro st r h hstack hsmall
    rcases adaptiveStep_spec p ratio scap mcap false st with
      ⟨_, hs⟩ | ⟨_, _, hs⟩ | ⟨h0, hm, hs⟩ |
      ⟨nlon, nlat, nrad, h1, h2, h3, hradf, hk2, h0, ⟨_, hs⟩ | ⟨hlt, hs⟩⟩
    · rw [adaptiveLoop_succ_finished hs] at h
      cases h
      exact hsmall
    · rw [adaptiveLoop_succ_finished hs] at h
      cases h
      exact hsmall
    · rw [adaptiveLoop_succ_next hs] at h
      refine ih _ r h ?_ ?_
      · intro i hi0 hi
        have hi' : i ≤ st.stackTop - 1 := hi
        exact hstack i hi0 (by omega)
      · intro j hj
        have hjs : j < st.nSplits + 1 := hj
        show (Function.update st.small st.nSplits (st.stack st.stackTop) j).bottom = B ∧
          (Function.update st.small st.nSplits (st.stack st.stackTop) j).top = T
        rcases Nat.lt_or_ge j st.nSplits with hj' | hj'
        · have hne : j ≠ st.nSplits := by omega
          simp only [Function.update_apply, hne, if_false]
          exact hsmall j hj'
        · have hje : j = st.nSplits := by omega
          simp only [hje, Function.update_apply, if_pos rfl]
          exact hstack st.stackTop h0 le_rfl
    · rw [adaptiveLoop_succ_finished hs] at h
      cases h
      exact hsmall
    · rw [adaptiveLoop_succ_next hs] at h
      have hnrad1 : nrad = 1 := hradf rfl
      subst hnrad1
      have hP : (st.stack st.stackTop).bottom = B ∧ (st.stack st.stackTop).top = T :=
        hstack st.stackTop h0 le_rfl
      refine ih _ r h ?_ ?_
      · intro i hi0 hi
        have hitop : i ≤ st.stackTop - 1 + (nlon * nlat * 1 : ℕ) := hi
        show ((_split_tesseroid (st.stack st.stackTop) nlon nlat 1
            st.stack (st.stackTop - 1)).1 i).bottom = B ∧
          ((_split_tesseroid (st.stack st.stackTop) nlon nlat 1
            st.stack (st.stackTop - 1)).1 i).top = T
        rcases le_or_lt i (st.stackTop - 1) with hile | hgt
        · rw [split_tesseroid_frame _ h1 h2 h3 _ _ i (Or.inl hile)]
          exact hstack i hi0 (by omega)
        · have hlen : (splitChildren (st.stack st.stackTop) nlon nlat 1).length =
              nlon * nlat * 1 := splitChildren_length _ h1 h2 h3
          obtain ⟨j, hj, hij⟩ : ∃ j : ℕ, (j : ℤ) = i - (st.stackTop - 1) - 1 ∧
              j < nlon * nlat * 1 := by
            exact ⟨(i - (st.stackTop - 1) - 1).toNat, by omega, by omega⟩
          have hi' : i = (st.stackTop - 1) + 1 + (j : ℤ) := by omega
          rw [hi', show _split_tesseroid (st.stack st.stackTop) nlon nlat 1
              st.stack (st.stackTop - 1) =
              pushList st.stack (st.stackTop - 1)
                (splitChildren (st.stack st.stackTop) nlon nlat 1) from rfl,
            pushList_get _ _ _ j (by omega)]
          have hmem : (splitChildren (st.stack st.stackTop) nlon nlat 1).getD j default ∈
              splitChildren (st.stack st.stackTop) nlon nlat 1 := by
            rw [List.getD_eq_getElem _ _ (by omega)]
            exact List.getElem_mem _
          have hbt := splitChildren_bottom_top (st.stack st.stackTop) nlon nlat hmem
          rw [hbt.1, hbt.2, hP.1, hP.2]
          exact ⟨rfl, rfl⟩
      · intro j hj
        have hj' : j < st.nSplits := hj
        exact hsmall j hj'

/-! ### Remaining metric helpers -/

theorem sqrt_max_zero (x : ℝ) : Real.sqrt (max 0 x) = Real.sqrt x := by
  rcases le_total 0 x with h | h
  · rw [max_eq_right h]
  · rw [max_eq_left h, Real.sqrt_zero, Real.sqrt_eq_zero_of_nonpos h]

theorem cosPsi_meridian (p : Point) (lonC latC : ℝ) (hlon : p.lon = lonC) :
    cosPsi p lonC latC = Real.cos (radians (latC - p.lat)) := by
  unfold cosPsi
  rw [hlon, sub_self, Real.cos_zero, mul_one, ← radians_sub, Real.cos_sub]
  ring

/-- Chord-length form: for a point at the same radius `r ≥ 0` as the
center and angular separation `Δ ∈ [0, 2π]` whose cosine is `cosPsi`,
the distance is `2·r·sin(Δ/2)`. -/
theorem dist_chord (p : Point) (t : Tesseroid) (Δ : ℝ)
    (hrc : p.radius = (t.bottom + t.top) / 2) (hr : 0 ≤ p.radius)
    (hcos : cosPsi p ((t.w + t.e) / 2) ((t.s + t.n) / 2) = Real.cos Δ)
    (h0 : 0 ≤ Δ) (h2 : Δ ≤ 2 * Real.pi) :
    _distance_tesseroid_point p t = 2 * p.radius * Real.sin (Δ / 2) := by
  rw [dist_eq_sqrt_radicand, hcos, ← hrc]
  have hrad : p.radius ^ 2 + p.radius ^ 2 - 2 * p.radius * p.radius * Real.cos Δ =
      (2 * p.radius) ^ 2 * ((1 - Real.cos Δ) / 2) := by ring
  have hnn : (0:ℝ) ≤ (2 * p.radius) ^ 2 * ((1 - Real.cos Δ) / 2) := by
    have := Real.cos_le_one Δ
    have := sq_nonneg (2 * p.radius)
    nlinarith
  rw [hrad, max_eq_right hnn, Real.sqrt_mul (sq_nonneg _) _,
    Real.sqrt_sq (by linarith), Real.sin_half_eq_sqrt h0 h2]


theorem splitChildren_proj {t : Tesseroid} {nlon nlat nrad : ℕ} {c : Tesseroid}
    (hc : c ∈ splitChildren t nlon nlat nrad) :
    (c.w, c.e) ∈ splitIntervals t.w t.e nlon ∧
    (c.s, c.n) ∈ splitIntervals t.s t.n nlat ∧
    (c.bottom, c.top) ∈ splitIntervals t.bottom t.top nrad := by
  unfold splitChildren at hc
  simp only [List.mem_flatMap, List.mem_map] at hc
  obtain ⟨il, hil, ia, hia, ir, hir, rfl⟩ := hc
  exact ⟨hil, hia, hir⟩

theorem mem_splitIntervals_one {a b : ℝ} {pr : ℝ × ℝ}
    (h : pr ∈ splitIntervals a b 1) : pr.1 = a ∧ pr.2 = b := by
  rw [splitIntervals_one] at h
  simp only [List.mem_singleton] at h
  rw [h]
  exact ⟨rfl, rfl⟩

theorem mem_splitIntervals_two {a b : ℝ} {pr : ℝ × ℝ}
    (h : pr ∈ splitIntervals a b 2) :
    (pr.1 = a ∧ pr.2 = (a + b) / 2) ∨ (pr.1 = (a + b) / 2 ∧ pr.2 = b) := by
  rw [splitIntervals_two] at h
  simp only [List.mem_cons, List.mem_singleton, List.not_mem_nil, or_false] at h
  rcases h with h | h <;> rw [h]
  · exact Or.inl ⟨rfl, rfl⟩
  · exact Or.inr ⟨rfl, rfl⟩

/-- C4: `split_tesseroid` with factors in `{1, 2}` pushes exactly
`n_lon·n_lat·n_rad` sub-tesseroids — the Cartesian product of the
per-axis sub-intervals — starting at slot `stack_top + 1`, returning
`stack_top + n_lon·n_lat·n_rad`; each bisected axis is cut at the exact
midpoint of the parent's bounds (adjacent halves, no overlap and no gap,
union reconstructing the parent), and non-split axes keep the parent's
bounds. -/
theorem c4_split_tesseroid_correct (t : Tesseroid) (nlon nlat nrad : ℕ)
    (stack : ℤ → Tesseroid) (stackTop : ℤ)
    (h1 : nlon = 1 ∨ nlon = 2) (h2 : nlat = 1 ∨ nlat = 2) (h3 : nrad = 1 ∨ nrad = 2) :
    (_split_tesseroid t nlon nlat nrad stack stackTop).2 =
        stackTop + (nlon * nlat * nrad : ℕ) ∧
    (splitChildren t nlon nlat nrad).length = nlon * nlat * nrad ∧
    (∀ j : ℕ, j < nlon * nlat * nrad →
      (_split_tesseroid t nlon nlat nrad stack stackTop).1 (stackTop + 1 + j) =
        (splitChildren t nlon nlat nrad).getD j default) ∧
    (∀ c ∈ splitChildren t nlon nlat nrad,
      (nlon = 1 → c.w = t.w ∧ c.e = t.e) ∧
      (nlon = 2 → (c.w = t.w ∧ c.e = (t.w + t.e) / 2) ∨
        (c.w = (t.w + t.e) / 2 ∧ c.e = t.e)) ∧
      (nlat = 1 → c.s = t.s ∧ c.n = t.n) ∧
      (nlat = 2 → (c.s = t.s ∧ c.n = (t.s + t.n) / 2) ∨
        (c.s = (t.s + t.n) / 2 ∧ c.n = t.n)) ∧
      (nrad = 1 → c.bottom = t.bottom ∧ c.top = t.top) ∧
      (nrad = 2 → (c.bottom = t.bottom ∧ c.top = (t.bottom + t.top) / 2) ∨
        (c.bottom = (t.bottom + t.top) / 2 ∧ c.top = t.top))) ∧
    (∀ a b : ℝ, a ≤ b →
      Set.Icc a ((a + b) / 2) ∪ Set.Icc ((a + b) / 2) b = Set.Icc a b ∧
      Set.Ioo a ((a + b) / 2) ∩ Set.Ioo ((a + b) / 2) b = ∅) := by
  refine ⟨split_tesseroid_top t h1 h2 h3 stack stackTop,
    splitChildren_length t h1 h2 h3, ?_, ?_, ?_⟩
  · intro j hj
    unfold _split_tesseroid
    exact pushList_get _ _ _ j (by rw [splitChildren_length t h1 h2 h3]; exact hj)
  · intro c hc
    obtain ⟨hlon, hlat, hrad⟩ := splitChildren_proj hc
    refine ⟨?_, ?_, ?_, ?_, ?_, ?_⟩ <;> intro hn
    · exact mem_splitIntervals_one (by rwa [hn] at hlon)
    · exact mem_splitIntervals_two (by rwa [hn] at hlon)
    · exact mem_splitIntervals_one (by rwa [hn] at hlat)
    · exact mem_splitIntervals_two (by rwa [hn] at hlat)
    · exact mem_splitIntervals_one (by rwa [hn] at hrad)
    · exact mem_splitIntervals_two (by rwa [hn] at hrad)
  · intro a b hab
    have hm1 : a ≤ (a + b) / 2 := by linarith
    have hm2 : (a + b) / 2 ≤ b := by linarith
    constructor
    · rw [Set.Icc_union_Icc_eq_Icc hm1 hm2]
    · apply Set.eq_empty_iff_forall_not_mem.2
      intro x hx
      have h1x := hx.1
      have h2x := hx.2
      simp only [Set.mem_Ioo] at h1x h2x
      linarith [h1x.2, h2x.1]

/-- C4 witness: the test-suite split of `(-10,10,-10,10,1,10)` along
longitude only. -/
theorem c4_split_tesseroid_correct_witness :
    (_split_tesseroid ⟨-10, 10, -10, 10, 1, 10⟩ 2 1 1 (fun _ => default) (-1)).2 =
        -1 + (2 * 1 * 1 : ℕ) ∧
    (splitChildren ⟨-10, 10, -10, 10, 1, 10⟩ 2 1 1).length = 2 * 1 * 1 ∧
    (∀ j : ℕ, j < 2 * 1 * 1 →
      (_split_tesseroid ⟨-10, 10, -10, 10, 1, 10⟩ 2 1 1 (fun _ => default) (-1)).1
          (-1 + 1 + j) =
        (splitChildren ⟨-10, 10, -10, 10, 1, 10⟩ 2 1 1).getD j default) ∧
    (∀ c ∈ splitChildren (⟨-10, 10, -10, 10, 1, 10⟩ : Tesseroid) 2 1 1,
      ((2:ℕ) = 1 → c.w = (-10:ℝ) ∧ c.e = 10) ∧
      ((2:ℕ) = 2 → (c.w = (-10:ℝ) ∧ c.e = (-10 + 10) / 2) ∨
        (c.w = ((-10:ℝ) + 10) / 2 ∧ c.e = 10)) ∧
      ((1:ℕ) = 1 → c.s = (-10:ℝ) ∧ c.n = 10) ∧
      ((1:ℕ) = 2 → (c.s = (-10:ℝ) ∧ c.n = (-10 + 10) / 2) ∨
        (c.s = ((-10:ℝ) + 10) / 2 ∧ c.n = 10)) ∧
      ((1:ℕ) = 1 → c.bottom = (1:ℝ) ∧ c.top = 10) ∧
      ((1:ℕ) = 2 → (c.bottom = (1:ℝ) ∧ c.top = (1 + 10) / 2) ∨
        (c.bottom = ((1:ℝ) + 10) / 2 ∧ c.top = 10))) ∧
    (∀ a b : ℝ, a ≤ b →
      Set.Icc a ((a + b) / 2) ∪ Set.Icc ((a + b) / 2) b = Set.Icc a b ∧
      Set.Ioo a ((a + b) / 2) ∩ Set.Ioo ((a + b) / 2) b = ∅) :=
  c4_split_tesseroid_correct ⟨-10, 10, -10, 10, 1, 10⟩ 2 1 1 (fun _ => default) (-1)
    (Or.inr rfl) (Or.inl rfl) (Or.inl rfl)

/-- C10: `split_tesseroid` mutates only the slots from `stack_top + 1`
through the returned new top; every other stack slot is unchanged. -/
theorem c10_split_tesseroid_mutates_only_pushed_slots (t : Tesseroid)
    (nlon nlat nrad : ℕ) (stack : ℤ → Tesseroid) (stackTop : ℤ) (i : ℤ)
    (h1 : nlon = 1 ∨ nlon = 2) (h2 : nlat = 1 ∨ nlat = 2) (h3 : nrad = 1 ∨ nrad = 2)
    (hi : i ≤ stackTop ∨ (_split_tesseroid t nlon nlat nrad stack stackTop).2 < i) :
    (_split_tesseroid t nlon nlat nrad stack stackTop).1 i = stack i := by
  refine split_tesseroid_frame t h1 h2 h3 stack stackTop i ?_
  rwa [split_tesseroid_top t h1 h2 h3 stack stackTop] at hi

/-- C10 witness: after the longitude-only split of the test suite (two
pushed slots 0 and 1), slot 5 still holds its original value. -/
theorem c10_split_tesseroid_mutates_only_pushed_slots_witness :
    (_split_tesseroid ⟨-10, 10, -10, 10, 1, 10⟩ 2 1 1 (fun _ => default) (-1)).1 5 =
      (fun _ => default) 5 :=
  c10_split_tesseroid_mutates_only_pushed_slots ⟨-10, 10, -10, 10, 1, 10⟩ 2 1 1
    (fun _ => default) (-1) 5 (Or.inr rfl) (Or.inl rfl) (Or.inl rfl)
    (Or.inr (by
      rw [split_tesseroid_top ⟨-10, 10, -10, 10, 1, 10⟩ (Or.inr rfl) (Or.inl rfl)
        (Or.inl rfl) (fun _ => default) (-1)]
      norm_num))

/-- C7: `distance_tesseroid_point` realises the law-of-cosines chord
distance `sqrt(r1² + r2² − 2 r1 r2 cos ψ)` to the tesseroid's geometric
center; for a point differing from the center only in radius it equals
`|radius_point − radius_center|`; for points on the equator (resp. the
same meridian) at the center's radius it equals the chord length
`2·r·sin(Δ/2)` with `Δ` the angular separation in radians. -/
theorem c7_distance_formula :
    (∀ (p : Point) (t : Tesseroid),
      _distance_tesseroid_point p t =
        Real.sqrt (p.radius ^ 2 + ((t.bottom + t.top) / 2) ^ 2 -
          2 * p.radius * ((t.bottom + t.top) / 2) *
            cosPsi p ((t.w + t.e) / 2) ((t.s + t.n) / 2))) ∧
    (∀ (p : Point) (t : Tesseroid), p.lon = (t.w + t.e) / 2 →
      p.lat = (t.s + t.n) / 2 →
      _distance_tesseroid_point p t = |p.radius - (t.bottom + t.top) / 2|) ∧
    (∀ (p : Point) (t : Tesseroid), p.lat = 0 → (t.s + t.n) / 2 = 0 →
      p.radius = (t.bottom + t.top) / 2 → 0 ≤ p.radius →
      0 ≤ radians ((t.w + t.e) / 2 - p.lon) →
      radians ((t.w + t.e) / 2 - p.lon) ≤ 2 * Real.pi →
      _distance_tesseroid_point p t =
        2 * p.radius * Real.sin (radians ((t.w + t.e) / 2 - p.lon) / 2)) ∧
    (∀ (p : Point) (t : Tesseroid), p.lon = (t.w + t.e) / 2 →
      p.radius = (t.bottom + t.top) / 2 → 0 ≤ p.radius →
      0 ≤ radians ((t.s + t.n) / 2 - p.lat) →
      radians ((t.s + t.n) / 2 - p.lat) ≤ 2 * Real.pi →
      _distance_tesseroid_point p t =
        2 * p.radius * Real.sin (radians ((t.s + t.n) / 2 - p.lat) / 2)) := by
  refine ⟨?_, ?_, ?_, ?_⟩
  · intro p t
    rw [dist_eq_sqrt_radicand, sqrt_max_zero]
  · intro p t hlon hlat
    exact dist_of_aligned p t hlon hlat
  · intro p t hlat hsym hrc hr h0 h2
    refine dist_chord p t _ hrc hr ?_ h0 h2
    rw [hsym, cosPsi_equator p _ hlat]
  · intro p t hlon hrc hr h0 h2
    exact dist_chord p t _ hrc hr (cosPsi_meridian p _ _ hlon) h0 h2

/-- C7 witness: the four parts at the test-suite inputs (tesseroid
`(-1,1,-1,1,0.5,1.5)` and points from `test_distance_tesseroid_point`). -/
theorem c7_distance_formula_witness :
    (_distance_tesseroid_point ⟨0, 0, 2⟩ ⟨-1, 1, -1, 1, 0.5, 1.5⟩ =
      Real.sqrt ((2:ℝ) ^ 2 + (((0.5:ℝ) + 1.5) / 2) ^ 2 -
        2 * 2 * (((0.5:ℝ) + 1.5) / 2) *
          cosPsi ⟨0, 0, 2⟩ (((-1:ℝ) + 1) / 2) (((-1:ℝ) + 1) / 2))) ∧
    (_distance_tesseroid_point ⟨0, 0, 2⟩ ⟨-1, 1, -1, 1, 0.5, 1.5⟩ =
      |(2:ℝ) - ((0.5 + 1.5) / 2)|) ∧
    (_distance_tesseroid_point ⟨-3, 0, 1⟩ ⟨-1, 1, -1, 1, 0.5, 1.5⟩ =
      2 * 1 * Real.sin (radians ((((-1:ℝ)) + 1) / 2 - (-3)) / 2)) ∧
    (_distance_tesseroid_point ⟨0, -3, 1⟩ ⟨-1, 1, -1, 1, 0.5, 1.5⟩ =
      2 * 1 * Real.sin (radians ((((-1:ℝ)) + 1) / 2 - (-3)) / 2)) := by
  have hπ := Real.pi_gt_three
  refine ⟨c7_distance_formula.1 ⟨0, 0, 2⟩ ⟨-1, 1, -1, 1, 0.5, 1.5⟩,
    c7_distance_formula.2.1 ⟨0, 0, 2⟩ ⟨-1, 1, -1, 1, 0.5, 1.5⟩ (by norm_num) (by norm_num),
    c7_distance_formula.2.2.1 ⟨-3, 0, 1⟩ ⟨-1, 1, -1, 1, 0.5, 1.5⟩ (by norm_num)
      (by norm_num) (by norm_num) (by norm_num)
      (by unfold radians; positivity)
      (by unfold radians; norm_num; nlinarith [Real.pi_pos]),
    c7_distance_formula.2.2.2 ⟨0, -3, 1⟩ ⟨-1, 1, -1, 1, 0.5, 1.5⟩ (by norm_num)
      (by norm_num) (by norm_num)
      (by unfold radians; positivity)
      (by unfold radians; norm_num; nlinarith [Real.pi_pos])⟩

/-- C8: the distance is non-negative for every input (the clamped
radicand keeps the square root's argument non-negative), and is exactly
0 when the point coincides with the tesseroid's geometric center. -/
theorem c8_distance_nonneg_and_zero_at_center :
    (∀ (p : Point) (t : Tesseroid), 0 ≤ _distance_tesseroid_point p t) ∧
    (∀ (p : Point) (t : Tesseroid), p.lon = (t.w + t.e) / 2 →
      p.lat = (t.s + t.n) / 2 → p.radius = (t.bottom + t.top) / 2 →
      _distance_tesseroid_point p t = 0) := by
  constructor
  · intro p t
    exact Real.sqrt_nonneg _
  · intro p t hlon hlat hr
    rw [dist_of_aligned p t hlon hlat, hr, sub_self, abs_zero]

/-- C8 witness: zero distance at the center of the test tesseroid. -/
theorem c8_distance_nonneg_and_zero_at_center_witness :
    (0:ℝ) ≤ _distance_tesseroid_point ⟨0, 0, 1⟩ ⟨-1, 1, -1, 1, 0.5, 1.5⟩ ∧
    _distance_tesseroid_point ⟨0, 0, 1⟩ ⟨-1, 1, -1, 1, 0.5, 1.5⟩ = 0 :=
  ⟨c8_distance_nonneg_and_zero_at_center.1 ⟨0, 0, 1⟩ ⟨-1, 1, -1, 1, 0.5, 1.5⟩,
    c8_distance_nonneg_and_zero_at_center.2 ⟨0, 0, 1⟩ ⟨-1, 1, -1, 1, 0.5, 1.5⟩
      (by norm_num) (by norm_num) (by norm_num)⟩

/-- C9: `tesseroid_dimensions` returns `(top·radians(east − west),
top·radians(north − south), top − bottom)`; on the test tesseroid
`(-1,1,-1,1,0.5,1.5)` this is `(1.5·radians 2, 1.5·radians 2, 1)`. -/
theorem c9_tesseroid_dimensions :
    (∀ t : Tesseroid, _tesseroid_dimensions t =
      (t.top * radians (t.e - t.w), t.top * radians (t.n - t.s), t.top - t.bottom)) ∧
    _tesseroid_dimensions ⟨-1, 1, -1, 1, 0.5, 1.5⟩ =
      (1.5 * radians 2, 1.5 * radians 2, 1) := by
  constructor
  · intro t
    rfl
  · unfold _tesseroid_dimensions
    norm_num

/-- C1: for every observation point, tesseroid and positive ratio (and in
fact for all inputs), `_adaptive_discretization` terminates: the loop
either empties the stack (error 0) or stops with a negative overflow
code; it never loops unboundedly (the fuel `2*mcap + scap + 2` always
suffices). -/
theorem c1_adaptive_discretization_terminates (p : Point) (t : Tesseroid)
    (ratio : ℝ) (scap mcap : ℕ) (stack : ℤ → Tesseroid) (small : ℕ → Tesseroid)
    (rad : Bool) (hwe : t.w < t.e) (hsn : t.s < t.n) (hb : 0 < t.bottom)
    (hbt : t.bottom < t.top) (hratio : 0 < ratio) :
    ∃ r : DiscResult,
      _adaptive_discretization p t ratio scap mcap stack small rad = some r ∧
      (r.errorCode = 0 ∨ r.errorCode = -1 ∨ r.errorCode = -2) := by
  obtain ⟨r, hr⟩ := _adaptive_discretization_isSome p t ratio scap mcap stack small rad
  refine ⟨r, hr, ?_⟩
  exact (adaptiveLoop_inv p ratio scap mcap rad _ _ r hr).1

/-- C1 witness: termination on the test tesseroid with a far point. -/
theorem c1_adaptive_discretization_terminates_witness :
    ∃ r : DiscResult,
      _adaptive_discretization ⟨0, 0, 20⟩ ⟨-10, 10, -10, 10, 1, 10⟩ 1 8 32
        (fun _ => default) (fun _ => default) false = some r ∧
      (r.errorCode = 0 ∨ r.errorCode = -1 ∨ r.errorCode = -2) :=
  c1_adaptive_discretization_terminates ⟨0, 0, 20⟩ ⟨-10, 10, -10, 10, 1, 10⟩ 1 8 32
    (fun _ => default) (fun _ => default) false (by norm_num) (by norm_num)
    (by norm_num) (by norm_num) (by norm_num)

/-- C3: in 2D mode every tesseroid placed in the output buffer keeps the
original tesseroid's `bottom` and `top` unchanged. -/
theorem c3_two_dimensional_keeps_radial_bounds (p : Point) (t : Tesseroid)
    (ratio : ℝ) (scap mcap : ℕ) (stack : ℤ → Tesseroid) (small : ℕ → Tesseroid)
    (r : DiscResult)
    (h : _adaptive_discretization p t ratio scap mcap stack small false = some r) :
    ∀ j : ℕ, j < r.nSplits →
      (r.small j).bottom = t.bottom ∧ (r.small j).top = t.top := by
  refine adaptiveLoop_keeps_radial p ratio scap mcap t.bottom t.top _ _ r h ?_ ?_
  · intro i hi0 hi
    have hi' : i ≤ (0:ℤ) := hi
    have hie : i = 0 := le_antisymm hi' hi0
    subst hie
    show ((Function.update stack 0 t) 0).bottom = t.bottom ∧
      ((Function.update stack 0 t) 0).top = t.top
    simp
  · intro j hj
    have hj' : j < 0 := hj
    omega

/-- Decision-level monotonicity in the observation radius: with the same
longitude and latitude, moving the point radially outward (both radii at
or above the tesseroid's top, radial bounds non-negative) cannot decrease
the distance to the center, hence cannot increase any per-axis split
factor.  (The per-run count `n_splits`, by contrast, is not monotone —
see the counterexample.) -/
theorem c5_amended_distance_monotone_in_radius :
    (∀ (t : Tesseroid) (p1 p2 : Point), p1.lon = p2.lon → p1.lat = p2.lat →
      0 ≤ t.bottom → t.bottom ≤ t.top → t.top ≤ p1.radius →
      p1.radius ≤ p2.radius →
      _distance_tesseroid_point p1 t ≤ _distance_tesseroid_point p2 t) ∧
    (∀ (t : Tesseroid) (p1 p2 : Point) (ratio size : ℝ), p1.lon = p2.lon →
      p1.lat = p2.lat → 0 ≤ t.bottom → t.bottom ≤ t.top → t.top ≤ p1.radius →
      p1.radius ≤ p2.radius → 0 < size →
      splitFactor ratio (_distance_tesseroid_point p2 t) size ≤
        splitFactor ratio (_distance_tesseroid_point p1 t) size) := by
  have main : ∀ (t : Tesseroid) (p1 p2 : Point), p1.lon = p2.lon → p1.lat = p2.lat →
      0 ≤ t.bottom → t.bottom ≤ t.top → t.top ≤ p1.radius → p1.radius ≤ p2.radius →
      _distance_tesseroid_point p1 t ≤ _distance_tesseroid_point p2 t := by
    intro t p1 p2 hlon hlat hb0 hbt htop hr
    rw [dist_eq_sqrt_radicand, dist_eq_sqrt_radicand]
    apply Real.sqrt_le_sqrt
    apply max_le_max le_rfl
    have hcos : cosPsi p1 ((t.w + t.e) / 2) ((t.s + t.n) / 2) =
        cosPsi p2 ((t.w + t.e) / 2) ((t.s + t.n) / 2) := by
      unfold cosPsi
      rw [hlon, hlat]
    rw [hcos]
    set c := cosPsi p2 ((t.w + t.e) / 2) ((t.s + t.n) / 2) with hc
    have hcle : c ≤ 1 := cosPsi_le_one p2 _ _
    have hrc0 : 0 ≤ (t.bottom + t.top) / 2 := by linarith
    have hrctop : (t.bottom + t.top) / 2 ≤ t.top := by linarith
    have hkey : (t.bottom + t.top) / 2 * c ≤ (t.bottom + t.top) / 2 :=
      mul_le_of_le_one_right hrc0 hcle
    nlinarith [hr, htop, hrctop, hkey]
  exact ⟨main, fun t p1 p2 ratio size hlon hlat hb0 hbt htop hr hsize =>
    splitFactor_antitone_distance hsize
      (main t p1 p2 hlon hlat hb0 hbt htop hr)⟩

/-- C5 amended witness at concrete inputs. -/
theorem c5_amended_distance_monotone_in_radius_witness :
    _distance_tesseroid_point ⟨0, 0, 11⟩ ⟨-10, 10, -10, 10, 1, 10⟩ ≤
      _distance_tesseroid_point ⟨0, 0, 12⟩ ⟨-10, 10, -10, 10, 1, 10⟩ ∧
    splitFactor 1 (_distance_tesseroid_point ⟨0, 0, 12⟩ ⟨-10, 10, -10, 10, 1, 10⟩) 1 ≤
      splitFactor 1 (_distance_tesseroid_point ⟨0, 0, 11⟩ ⟨-10, 10, -10, 10, 1, 10⟩) 1 :=
  ⟨c5_amended_distance_monotone_in_radius.1 ⟨-10, 10, -10, 10, 1, 10⟩ ⟨0, 0, 11⟩
      ⟨0, 0, 12⟩ rfl rfl (by norm_num) (by norm_num) (by norm_num) (by norm_num),
    c5_amended_distance_monotone_in_radius.2 ⟨-10, 10, -10, 10, 1, 10⟩ ⟨0, 0, 11⟩
      ⟨0, 0, 12⟩ 1 1 rfl rfl (by norm_num) (by norm_num) (by norm_num) (by norm_num)
      (by norm_num)⟩

/-- Decision-level monotonicity in the ratio: a larger
`distance_size_ratio` cannot decrease any per-axis split factor of the
decision applied to a given tesseroid, so every tesseroid accepted at the
larger ratio is accepted at the smaller one.  (The per-run count
`n_splits`, by contrast, is not monotone — see the counterexample.) -/
theorem c6_amended_splitFactor_monotone_in_ratio :
    (∀ (p : Point) (t : Tesseroid) (q1 q2 : ℝ), q1 ≤ q2 →
      splitFactor q1 (_distance_tesseroid_point p t) (_tesseroid_dimensions t).1 ≤
        splitFactor q2 (_distance_tesseroid_point p t) (_tesseroid_dimensions t).1 ∧
      splitFactor q1 (_distance_tesseroid_point p t) (_tesseroid_dimensions t).2.1 ≤
        splitFactor q2 (_distance_tesseroid_point p t) (_tesseroid_dimensions t).2.1 ∧
      splitFactor q1 (_distance_tesseroid_point p t) (_tesseroid_dimensions t).2.2 ≤
        splitFactor q2 (_distance_tesseroid_point p t) (_tesseroid_dimensions t).2.2) ∧
    (∀ (q1 q2 distance size : ℝ), q1 ≤ q2 →
      splitFactor q2 distance size = 1 → splitFactor q1 distance size = 1) := by
  constructor
  · intro p t q1 q2 h
    exact ⟨splitFactor_mono h, splitFactor_mono h, splitFactor_mono h⟩
  · intro q1 q2 distance size h h2
    have := @splitFactor_mono q1 q2 distance size h
    rcases @splitFactor_mem q1 distance size with
      h1 | h1
    · exact h1
    · omega

/-- C6 amended witness at concrete inputs. -/
theorem c6_amended_splitFactor_monotone_in_ratio_witness :
    (splitFactor 1 (_distance_tesseroid_point ⟨0, 0, 11⟩ ⟨-10, 10, -10, 10, 1, 10⟩)
        (_tesseroid_dimensions ⟨-10, 10, -10, 10, 1, 10⟩).1 ≤
      splitFactor 2 (_distance_tesseroid_point ⟨0, 0, 11⟩ ⟨-10, 10, -10, 10, 1, 10⟩)
        (_tesseroid_dimensions ⟨-10, 10, -10, 10, 1, 10⟩).1) ∧
    (splitFactor 1 (_distance_tesseroid_point ⟨0, 0, 11⟩ ⟨-10, 10, -10, 10, 1, 10⟩)
        (_tesseroid_dimensions ⟨-10, 10, -10, 10, 1, 10⟩).2.1 ≤
      splitFactor 2 (_distance_tesseroid_point ⟨0, 0, 11⟩ ⟨-10, 10, -10, 10, 1, 10⟩)
        (_tesseroid_dimensions ⟨-10, 10, -10, 10, 1, 10⟩).2.1) ∧
    (splitFactor 1 (_distance_tesseroid_point ⟨0, 0, 11⟩ ⟨-10, 10, -10, 10, 1, 10⟩)
        (_tesseroid_dimensions ⟨-10, 10, -10, 10, 1, 10⟩).2.2 ≤
      splitFactor 2 (_distance_tesseroid_point ⟨0, 0, 11⟩ ⟨-10, 10, -10, 10, 1, 10⟩)
        (_tesseroid_dimensions ⟨-10, 10, -10, 10, 1, 10⟩).2.2) :=
  c6_amended_splitFactor_monotone_in_ratio.1 ⟨0, 0, 11⟩ ⟨-10, 10, -10, 10, 1, 10⟩ 1 2
    (by norm_num)

/-! ### Concrete run: immediate acceptance (success, 2D mode)

Point `(0,0,10)` against tesseroid `(-10,10,-10,10,1,9)` with ratio 1:
the aligned center gives distance 5 ≥ π = ratio·L_lon, so the root is
accepted at once and the loop returns `(1, 0)`. -/

theorem succ_dist :
    _distance_tesseroid_point ⟨0, 0, 10⟩ ⟨-10, 10, -10, 10, 1, 9⟩ = 5 := by
  rw [dist_of_aligned ⟨0, 0, 10⟩ ⟨-10, 10, -10, 10, 1, 9⟩ (by norm_num) (by norm_num)]
  norm_num

theorem succ_nlon :
    splitFactor 1 (_distance_tesseroid_point ⟨0, 0, 10⟩ ⟨-10, 10, -10, 10, 1, 9⟩)
      (_tesseroid_dimensions ⟨-10, 10, -10, 10, 1, 9⟩).1 = 1 := by
  have hdim : (_tesseroid_dimensions ⟨-10, 10, -10, 10, 1, 9⟩).1 = 9 * radians 20 := by
    norm_num [_tesseroid_dimensions]
  rw [succ_dist, hdim]
  refine splitFactor_eq_one ?_ ?_ <;> unfold radians
  · positivity
  · nlinarith [Real.pi_lt_four]

theorem succ_nlat :
    splitFactor 1 (_distance_tesseroid_point ⟨0, 0, 10⟩ ⟨-10, 10, -10, 10, 1, 9⟩)
      (_tesseroid_dimensions ⟨-10, 10, -10, 10, 1, 9⟩).2.1 = 1 := by
  have hdim : (_tesseroid_dimensions ⟨-10, 10, -10, 10, 1, 9⟩).2.1 =
      9 * radians 20 := by
    norm_num [_tesseroid_dimensions]
  rw [succ_dist, hdim]
  refine splitFactor_eq_one ?_ ?_ <;> unfold radians
  · positivity
  · nlinarith [Real.pi_lt_four]

theorem succ_step1 :
    adaptiveStep ⟨0, 0, 10⟩ 1 8 32 false
      ⟨Function.update (fun _ => default) 0 ⟨-10, 10, -10, 10, 1, 9⟩, 0,
        (fun _ => default), 0⟩ =
    .next ⟨Function.update (fun _ => default) 0 ⟨-10, 10, -10, 10, 1, 9⟩, -1,
      Function.update (fun _ => default) 0 ⟨-10, 10, -10, 10, 1, 9⟩, 1⟩ := by
  have hpop : (Function.update (fun _ => (default : Tesseroid)) (0:ℤ)
      (⟨-10, 10, -10, 10, 1, 9⟩ : Tesseroid)) 0 = ⟨-10, 10, -10, 10, 1, 9⟩ := by
    simp
  simp only [adaptiveStep, hpop, succ_nlon, succ_nlat]
  norm_num

theorem succ_step2 :
    adaptiveStep ⟨0, 0, 10⟩ 1 8 32 false
      ⟨Function.update (fun _ => default) 0 ⟨-10, 10, -10, 10, 1, 9⟩, -1,
        Function.update (fun _ => default) 0 ⟨-10, 10, -10, 10, 1, 9⟩, 1⟩ =
    .finished ⟨1, 0, Function.update (fun _ => default) 0 ⟨-10, 10, -10, 10, 1, 9⟩,
      Function.update (fun _ => default) 0 ⟨-10, 10, -10, 10, 1, 9⟩⟩ := by
  simp only [adaptiveStep]
  norm_num

theorem succ_run :
    _adaptive_discretization ⟨0, 0, 10⟩ ⟨-10, 10, -10, 10, 1, 9⟩ 1 8 32
      (fun _ => default) (fun _ => default) false =
    some ⟨1, 0, Function.update (fun _ => default) 0 ⟨-10, 10, -10, 10, 1, 9⟩,
      Function.update (fun _ => default) 0 ⟨-10, 10, -10, 10, 1, 9⟩⟩ := by
  unfold _adaptive_discretization
  rw [show (2 * 32 + 8 + 2 : ℕ) = 73 + 1 from rfl,
    adaptiveLoop_succ_next succ_step1,
    show (73 : ℕ) = 72 + 1 from rfl,
    adaptiveLoop_succ_finished succ_step2]

/-- The chord distance is at least the radial gap to the center (the
angular term of the radicand is non-negative since `cos ψ ≤ 1`). -/
theorem dist_ge_radial_gap (p : Point) (t : Tesseroid) (hr : 0 ≤ p.radius)
    (hrc : 0 ≤ (t.bottom + t.top) / 2) :
    |p.radius - (t.bottom + t.top) / 2| ≤ _distance_tesseroid_point p t := by
  rw [dist_eq_sqrt_radicand]
  have hcos := cosPsi_le_one p ((t.w + t.e) / 2) ((t.s + t.n) / 2)
  have h1 : (p.radius - (t.bottom + t.top) / 2) ^ 2 ≤
      max 0 (p.radius ^ 2 + ((t.bottom + t.top) / 2) ^ 2 -
        2 * p.radius * ((t.bottom + t.top) / 2) *
          cosPsi p ((t.w + t.e) / 2) ((t.s + t.n) / 2)) := by
    refine le_trans ?_ (le_max_right _ _)
    nlinarith [mul_nonneg hr hrc]
  calc |p.radius - (t.bottom + t.top) / 2|
      = Real.sqrt ((p.radius - (t.bottom + t.top) / 2) ^ 2) :=
        (Real.sqrt_sq_eq_abs _).symm
    _ ≤ _ := Real.sqrt_le_sqrt h1

/-! ### Concrete run: stack overflow (`error_code = -1`)

The `test_stack_overflow` input: point `(0,0,1)` against tesseroid
`(-10,10,-10,10,0.5,1)` with ratio 10 and a stack of capacity 2.  The
root must split 4-fold, which does not fit. -/

theorem ovf1_dist :
    _distance_tesseroid_point ⟨0, 0, 1⟩ ⟨-10, 10, -10, 10, 0.5, 1⟩ = 0.25 := by
  rw [dist_of_aligned ⟨0, 0, 1⟩ ⟨-10, 10, -10, 10, 0.5, 1⟩ (by norm_num) (by norm_num)]
  norm_num

theorem ovf1_nlon :
    splitFactor 10 (_distance_tesseroid_point ⟨0, 0, 1⟩ ⟨-10, 10, -10, 10, 0.5, 1⟩)
      (_tesseroid_dimensions ⟨-10, 10, -10, 10, 0.5, 1⟩).1 = 2 := by
  have hdim : (_tesseroid_dimensions ⟨-10, 10, -10, 10, 0.5, 1⟩).1 =
      1 * radians 20 := by
    norm_num [_tesseroid_dimensions]
  rw [ovf1_dist, hdim]
  refine splitFactor_eq_two ?_ ?_ <;> unfold radians
  · positivity
  · nlinarith [Real.pi_gt_three]

theorem ovf1_nlat :
    splitFactor 10 (_distance_tesseroid_point ⟨0, 0, 1⟩ ⟨-10, 10, -10, 10, 0.5, 1⟩)
      (_tesseroid_dimensions ⟨-10, 10, -10, 10, 0.5, 1⟩).2.1 = 2 := by
  have hdim : (_tesseroid_dimensions ⟨-10, 10, -10, 10, 0.5, 1⟩).2.1 =
      1 * radians 20 := by
    norm_num [_tesseroid_dimensions]
  rw [ovf1_dist, hdim]
  refine splitFactor_eq_two ?_ ?_ <;> unfold radians
  · positivity
  · nlinarith [Real.pi_gt_three]

theorem ovf1_step1 :
    adaptiveStep ⟨0, 0, 1⟩ 10 2 32 false
      ⟨Function.update (fun _ => default) 0 ⟨-10, 10, -10, 10, 0.5, 1⟩, 0,
        (fun _ => default), 0⟩ =
    .finished ⟨0, -1, Function.update (fun _ => default) 0 ⟨-10, 10, -10, 10, 0.5, 1⟩,
      (fun _ => default)⟩ := by
  have hpop : (Function.update (fun _ => (default : Tesseroid)) (0:ℤ)
      (⟨-10, 10, -10, 10, 0.5, 1⟩ : Tesseroid)) 0 = ⟨-10, 10, -10, 10, 0.5, 1⟩ := by
    simp
  simp only [adaptiveStep, hpop, ovf1_nlon, ovf1_nlat]
  norm_num

theorem ovf1_run :
    _adaptive_discretization ⟨0, 0, 1⟩ ⟨-10, 10, -10, 10, 0.5, 1⟩ 10 2 32
      (fun _ => default) (fun _ => default) false =
    some ⟨0, -1, Function.update (fun _ => default) 0 ⟨-10, 10, -10, 10, 0.5, 1⟩,
      (fun _ => default)⟩ := by
  unfold _adaptive_discretization
  rw [show (2 * 32 + 2 + 2 : ℕ) = 67 + 1 from rfl,
    adaptiveLoop_succ_finished ovf1_step1]

/-! ### Concrete run: output-buffer overflow (`error_code = -2`)

Point `(0,0,11)` against the thin shell `(-10,10,-10,10,8,9)` with
ratio 1 and an output buffer of capacity 2: the root splits into 4
quarters, each quarter is acceptable, and the third acceptance overflows
the buffer. -/

noncomputable def ovf2Stack0 : ℤ → Tesseroid :=
  Function.update (fun _ => default) 0 ⟨-10, 10, -10, 10, 8, 9⟩

noncomputable def ovf2Stack1 : ℤ → Tesseroid :=
  (_split_tesseroid ⟨-10, 10, -10, 10, 8, 9⟩ 2 2 1 ovf2Stack0 (-1)).1

theorem ovf2_dist :
    _distance_tesseroid_point ⟨0, 0, 11⟩ ⟨-10, 10, -10, 10, 8, 9⟩ = 2.5 := by
  rw [dist_of_aligned ⟨0, 0, 11⟩ ⟨-10, 10, -10, 10, 8, 9⟩ (by norm_num) (by norm_num)]
  norm_num

theorem ovf2_nlon :
    splitFactor 1 (_distance_tesseroid_point ⟨0, 0, 11⟩ ⟨-10, 10, -10, 10, 8, 9⟩)
      (_tesseroid_dimensions ⟨-10, 10, -10, 10, 8, 9⟩).1 = 2 := by
  have hdim : (_tesseroid_dimensions ⟨-10, 10, -10, 10, 8, 9⟩).1 =
      9 * radians 20 := by
    norm_num [_tesseroid_dimensions]
  rw [ovf2_dist, hdim]
  refine splitFactor_eq_two ?_ ?_ <;> unfold radians
  · positivity
  · nlinarith [Real.pi_gt_three]

theorem ovf2_nlat :
    splitFactor 1 (_distance_tesseroid_point ⟨0, 0, 11⟩ ⟨-10, 10, -10, 10, 8, 9⟩)
      (_tesseroid_dimensions ⟨-10, 10, -10, 10, 8, 9⟩).2.1 = 2 := by
  have hdim : (_tesseroid_dimensions ⟨-10, 10, -10, 10, 8, 9⟩).2.1 =
      9 * radians 20 := by
    norm_num [_tesseroid_dimensions]
  rw [ovf2_dist, hdim]
  refine splitFactor_eq_two ?_ ?_ <;> unfold radians
  · positivity
  · nlinarith [Real.pi_gt_three]

/-- Acceptance of each quarter of the thin shell: the radial gap 2.5
alone exceeds ratio·size for both horizontal axes. -/
theorem ovf2_accept (c : Tesseroid) (hb : c.bottom = 8) (ht : c.top = 9)
    (hw : c.e - c.w = 10) (hn : c.n - c.s = 10) :
    splitFactor 1 (_distance_tesseroid_point ⟨0, 0, 11⟩ c)
      (_tesseroid_dimensions c).1 = 1 ∧
    splitFactor 1 (_distance_tesseroid_point ⟨0, 0, 11⟩ c)
      (_tesseroid_dimensions c).2.1 = 1 := by
  have hgap : (2.5 : ℝ) ≤ _distance_tesseroid_point ⟨0, 0, 11⟩ c := by
    have h := dist_ge_radial_gap ⟨0, 0, 11⟩ c (by norm_num)
      (by rw [hb, ht]; norm_num)
    rw [hb, ht] at h
    norm_num at h
    rw [show |(5:ℝ)/2| = 5/2 from abs_of_nonneg (by norm_num)] at h
    norm_num
    exact h
  constructor
  · have hdim : (_tesseroid_dimensions c).1 = 9 * radians 10 := by
      simp only [_tesseroid_dimensions]
      rw [ht, hw]
    rw [hdim]
    refine splitFactor_eq_one ?_ ?_ <;> unfold radians
    · positivity
    · nlinarith [Real.pi_lt_four, hgap]
  · have hdim : (_tesseroid_dimensions c).2.1 = 9 * radians 10 := by
      simp only [_tesseroid_dimensions]
      rw [ht, hn]
    rw [hdim]
    refine splitFactor_eq_one ?_ ?_ <;> unfold radians
    · positivity
    · nlinarith [Real.pi_lt_four, hgap]

theorem ovf2_children :
    splitChildren ⟨-10, 10, -10, 10, 8, 9⟩ 2 2 1 =
      [⟨-10, 0, -10, 0, 8, 9⟩, ⟨-10, 0, 0, 10, 8, 9⟩,
       ⟨0, 10, -10, 0, 8, 9⟩, ⟨0, 10, 0, 10, 8, 9⟩] := by
  norm_num [splitChildren, splitIntervals]

theorem ovf2_slot3 : ovf2Stack1 3 = ⟨0, 10, 0, 10, 8, 9⟩ := by
  unfold ovf2Stack1 _split_tesseroid
  have h := pushList_get (splitChildren ⟨-10, 10, -10, 10, 8, 9⟩ 2 2 1)
    ovf2Stack0 (-1) 3 (by rw [ovf2_children]; norm_num)
  rw [ovf2_children] at h ⊢
  norm_num at h
  exact h

theorem ovf2_slot2 : ovf2Stack1 2 = ⟨0, 10, -10, 0, 8, 9⟩ := by
  unfold ovf2Stack1 _split_tesseroid
  have h := pushList_get (splitChildren ⟨-10, 10, -10, 10, 8, 9⟩ 2 2 1)
    ovf2Stack0 (-1) 2 (by rw [ovf2_children]; norm_num)
  rw [ovf2_children] at h ⊢
  norm_num at h
  exact h

theorem ovf2_slot1 : ovf2Stack1 1 = ⟨-10, 0, 0, 10, 8, 9⟩ := by
  unfold ovf2Stack1 _split_tesseroid
  have h := pushList_get (splitChildren ⟨-10, 10, -10, 10, 8, 9⟩ 2 2 1)
    ovf2Stack0 (-1) 1 (by rw [ovf2_children]; norm_num)
  rw [ovf2_children] at h ⊢
  norm_num at h
  exact h

theorem ovf2_step1 :
    adaptiveStep ⟨0, 0, 11⟩ 1 8 2 false
      ⟨Function.update (fun _ => default) 0 ⟨-10, 10, -10, 10, 8, 9⟩, 0,
        (fun _ => default), 0⟩ =
    .next ⟨ovf2Stack1, 3, (fun _ => default), 0⟩ := by
  have hpop : (Function.update (fun _ => (default : Tesseroid)) (0:ℤ)
      (⟨-10, 10, -10, 10, 8, 9⟩ : Tesseroid)) 0 = ⟨-10, 10, -10, 10, 8, 9⟩ := by
    simp
  unfold ovf2Stack1 ovf2Stack0
  simp only [adaptiveStep, hpop, ovf2_nlon, ovf2_nlat]
  norm_num [split_tesseroid_top]

theorem ovf2_step2 :
    adaptiveStep ⟨0, 0, 11⟩ 1 8 2 false ⟨ovf2Stack1, 3, (fun _ => default), 0⟩ =
    .next ⟨ovf2Stack1, 2,
      Function.update (fun _ => default) 0 ⟨0, 10, 0, 10, 8, 9⟩, 1⟩ := by
  have hacc := ovf2_accept ⟨0, 10, 0, 10, 8, 9⟩ rfl rfl (by norm_num) (by norm_num)
  simp only [adaptiveStep, ovf2_slot3, hacc.1, hacc.2]
  norm_num

theorem ovf2_step3 :
    adaptiveStep ⟨0, 0, 11⟩ 1 8 2 false
      ⟨ovf2Stack1, 2, Function.update (fun _ => default) 0 ⟨0, 10, 0, 10, 8, 9⟩, 1⟩ =
    .next ⟨ovf2Stack1, 1,
      Function.update (Function.update (fun _ => default) 0 ⟨0, 10, 0, 10, 8, 9⟩)
        1 ⟨0, 10, -10, 0, 8, 9⟩, 2⟩ := by
  have hacc := ovf2_accept ⟨0, 10, -10, 0, 8, 9⟩ rfl rfl (by norm_num) (by norm_num)
  simp only [adaptiveStep, ovf2_slot2, hacc.1, hacc.2]
  norm_num

theorem ovf2_step4 :
    adaptiveStep ⟨0, 0, 11⟩ 1 8 2 false
      ⟨ovf2Stack1, 1,
        Function.update (Function.update (fun _ => default) 0 ⟨0, 10, 0, 10, 8, 9⟩)
          1 ⟨0, 10, -10, 0, 8, 9⟩, 2⟩ =
    .finished ⟨2, -2, ovf2Stack1,
      Function.update (Function.update (fun _ => default) 0 ⟨0, 10, 0, 10, 8, 9⟩)
        1 ⟨0, 10, -10, 0, 8, 9⟩⟩ := by
  have hacc := ovf2_accept ⟨-10, 0, 0, 10, 8, 9⟩ rfl rfl (by norm_num) (by norm_num)
  simp only [adaptiveStep, ovf2_slot1, hacc.1, hacc.2]
  norm_num

theorem ovf2_run :
    _adaptive_discretization ⟨0, 0, 11⟩ ⟨-10, 10, -10, 10, 8, 9⟩ 1 8 2
      (fun _ => default) (fun _ => default) false =
    some ⟨2, -2, ovf2Stack1,
      Function.update (Function.update (fun _ => default) 0 ⟨0, 10, 0, 10, 8, 9⟩)
        1 ⟨0, 10, -10, 0, 8, 9⟩⟩ := by
  unfold _adaptive_discretization
  rw [show (2 * 2 + 8 + 2 : ℕ) = 13 + 1 from rfl,
    adaptiveLoop_succ_next ovf2_step1,
    show (13 : ℕ) = 12 + 1 from rfl,
    adaptiveLoop_succ_next ovf2_step2,
    show (12 : ℕ) = 11 + 1 from rfl,
    adaptiveLoop_succ_next ovf2_step3,
    show (11 : ℕ) = 10 + 1 from rfl,
    adaptiveLoop_succ_finished ovf2_step4]

/-- C2: the error protocol of `_adaptive_discretization`.  In general the
returned code is 0, -1 or -2 and no write ever lands at or beyond either
buffer's capacity (overflow stops the loop before the write).  On the
`test_stack_overflow` inputs: a stack of capacity 2 yields
`(n_splits, error) = (0, -1)`; an output buffer of capacity 2 yields
`(2, -2)`; and a successful discretization yields error 0. -/
theorem c2_overflow_error_codes :
    (∀ (p : Point) (t : Tesseroid) (ratio : ℝ) (scap mcap : ℕ)
      (stack : ℤ → Tesseroid) (small : ℕ → Tesseroid) (rad : Bool) (r : DiscResult),
      _adaptive_discretization p t ratio scap mcap stack small rad = some r →
      (r.errorCode = 0 ∨ r.errorCode = -1 ∨ r.errorCode = -2) ∧
      (1 ≤ scap → ∀ i : ℤ, (scap : ℤ) ≤ i → r.stack i = stack i) ∧
      (∀ j : ℕ, mcap ≤ j → r.small j = small j)) ∧
    (_adaptive_discretization ⟨0, 0, 1⟩ ⟨-10, 10, -10, 10, 0.5, 1⟩ 10 2 32
        (fun _ => default) (fun _ => default) false).map
      (fun r => (r.nSplits, r.errorCode)) = some (0, -1) ∧
    (_adaptive_discretization ⟨0, 0, 11⟩ ⟨-10, 10, -10, 10, 8, 9⟩ 1 8 2
        (fun _ => default) (fun _ => default) false).map
      (fun r => (r.nSplits, r.errorCode)) = some (2, -2) ∧
    (_adaptive_discretization ⟨0, 0, 10⟩ ⟨-10, 10, -10, 10, 1, 9⟩ 1 8 32
        (fun _ => default) (fun _ => default) false).map
      (fun r => (r.nSplits, r.errorCode)) = some (1, 0) := by
  refine ⟨?_, ?_, ?_, ?_⟩
  · intro p t ratio scap mcap stack small rad r h
    obtain ⟨herr, hstack, hsmall⟩ := adaptiveLoop_inv p ratio scap mcap rad _ _ r h
    refine ⟨herr, ?_, ?_⟩
    · intro hscap i hi
      rw [hstack i hi]
      have : i ≠ 0 := by omega
      simp [Function.update_apply, this]
    · intro j hj
      exact hsmall j hj
  · rw [ovf1_run]
    rfl
  · rw [ovf2_run]
    rfl
  · rw [succ_run]
    rfl

/-- C2 witness: the general part applied to the successful concrete run. -/
theorem c2_overflow_error_codes_witness :
    (((0:ℤ) = 0 ∨ (0:ℤ) = -1 ∨ (0:ℤ) = -2) ∧
      ((1:ℕ) ≤ 8 → ∀ i : ℤ, (8 : ℤ) ≤ i →
        Function.update (fun _ : ℤ => (default : Tesseroid)) 0
          (⟨-10, 10, -10, 10, 1, 9⟩ : Tesseroid) i =
          (fun _ : ℤ => (default : Tesseroid)) i) ∧
      (∀ j : ℕ, 32 ≤ j →
        Function.update (fun _ : ℕ => (default : Tesseroid)) 0
          (⟨-10, 10, -10, 10, 1, 9⟩ : Tesseroid) j =
          (fun _ : ℕ => (default : Tesseroid)) j)) :=
  c2_overflow_error_codes.1 ⟨0, 0, 10⟩ ⟨-10, 10, -10, 10, 1, 9⟩ 1 8 32
    (fun _ => default) (fun _ => default) false
    ⟨1, 0, Function.update (fun _ => default) 0 ⟨-10, 10, -10, 10, 1, 9⟩,
      Function.update (fun _ => default) 0 ⟨-10, 10, -10, 10, 1, 9⟩⟩ succ_run

/-- C3 witness: the successful 2D run keeps `bottom = 1` and `top = 9` on
its single accepted piece. -/
theorem c3_two_dimensional_keeps_radial_bounds_witness :
    ((Function.update (fun _ : ℕ => (default : Tesseroid)) 0
        (⟨-10, 10, -10, 10, 1, 9⟩ : Tesseroid)) 0).bottom = (1:ℝ) ∧
    ((Function.update (fun _ : ℕ => (default : Tesseroid)) 0
        (⟨-10, 10, -10, 10, 1, 9⟩ : Tesseroid)) 0).top = (9:ℝ) :=
  c3_two_dimensional_keeps_radial_bounds ⟨0, 0, 10⟩ ⟨-10, 10, -10, 10, 1, 9⟩ 1 8 32
    (fun _ => default) (fun _ => default)
    ⟨1, 0, Function.update (fun _ => default) 0 ⟨-10, 10, -10, 10, 1, 9⟩,
      Function.update (fun _ => default) 0 ⟨-10, 10, -10, 10, 1, 9⟩⟩ succ_run
    0 (by norm_num)

/-! ### Counterexample to global monotonicity (claims on `n_splits`)

Tesseroid `(0, 8, -1/8, 1/8, 539/640, 1)` observed from `(4, 0, r)` in 3D
mode.  At `r = 161/160` with ratio `3/5` the root splits radially only,
the upper shell then splits 4-fold and the run accepts 5 pieces; at the
*larger* ratio `5/8` (or the *closer* radius `641/640` with ratio `3/5`)
the root splits 4-fold at once and the run accepts only 4 pieces. -/

noncomputable def ceT : Tesseroid := ⟨0, 8, -1/8, 1/8, 539/640, 1⟩

noncomputable def ceLow : Tesseroid := ⟨0, 8, -1/8, 1/8, 539/640, 1179/1280⟩

noncomputable def ceHigh : Tesseroid := ⟨0, 8, -1/8, 1/8, 1179/1280, 1⟩

noncomputable def ceWHL : Tesseroid := ⟨0, 4, -1/8, 1/8, 1179/1280, 2459/2560⟩

noncomputable def ceWHH : Tesseroid := ⟨0, 4, -1/8, 1/8, 2459/2560, 1⟩

noncomputable def ceEHL : Tesseroid := ⟨4, 8, -1/8, 1/8, 1179/1280, 2459/2560⟩

noncomputable def ceEHH : Tesseroid := ⟨4, 8, -1/8, 1/8, 2459/2560, 1⟩

noncomputable def ceWL : Tesseroid := ⟨0, 4, -1/8, 1/8, 539/640, 1179/1280⟩

noncomputable def ceWH : Tesseroid := ⟨0, 4, -1/8, 1/8, 1179/1280, 1⟩

noncomputable def ceEL : Tesseroid := ⟨4, 8, -1/8, 1/8, 539/640, 1179/1280⟩

noncomputable def ceEH : Tesseroid := ⟨4, 8, -1/8, 1/8, 1179/1280, 1⟩

noncomputable def cePF : Point := ⟨4, 0, 161/160⟩

noncomputable def cePN : Point := ⟨4, 0, 641/640⟩

noncomputable def ceStack0 : ℤ → Tesseroid :=
  Function.update (fun _ => default) 0 ceT

noncomputable def ceStackF1 : ℤ → Tesseroid :=
  (_split_tesseroid ceT 1 1 2 ceStack0 (-1)).1

noncomputable def ceStackF2 : ℤ → Tesseroid :=
  (_split_tesseroid ceHigh 2 1 2 ceStackF1 0).1

noncomputable def ceStackBN : ℤ → Tesseroid :=
  (_split_tesseroid ceT 2 1 2 ceStack0 (-1)).1

/-- A distance lower bound for a point on the symmetry latitude: any `B`
whose square is below the radicand evaluated with an upper bound `c` for
the separation cosine bounds the distance from below. -/
theorem dist_ge_of_equator (p : Point) (t : Tesseroid) (c B : ℝ)
    (hlat : p.lat = 0) (hsym : t.s + t.n = 0)
    (hc : Real.cos (radians ((t.w + t.e) / 2 - p.lon)) ≤ c)
    (hrrc : 0 ≤ p.radius * ((t.bottom + t.top) / 2))
    (hBsq : B ^ 2 ≤ (p.radius - (t.bottom + t.top) / 2) ^ 2 +
      2 * (p.radius * ((t.bottom + t.top) / 2)) * (1 - c)) :
    B ≤ _distance_tesseroid_point p t := by
  rw [dist_eq_sqrt_radicand]
  have hl0 : (t.s + t.n) / 2 = 0 := by rw [hsym]; norm_num
  rw [hl0, cosPsi_equator p _ hlat]
  refine Real.le_sqrt_of_sq_le ?_
  refine le_trans ?_ (le_max_right _ _)
  have hmul : 2 * (p.radius * ((t.bottom + t.top) / 2)) *
      Real.cos (radians ((t.w + t.e) / 2 - p.lon)) ≤
      2 * (p.radius * ((t.bottom + t.top) / 2)) * c :=
    mul_le_mul_of_nonneg_left hc (by linarith)
  nlinarith [hmul, hBsq]

theorem accept_of_ge {ratio size d B0 : ℝ} (hsize : 0 < size)
    (h1 : ratio * size ≤ B0) (h2 : B0 ≤ d) : splitFactor ratio d size = 1 :=
  splitFactor_eq_one hsize (le_trans h1 h2)

/-- Quartic upper bound for `cos(2°)` from `Real.cos_bound` and the
6-digit bounds on π. -/
theorem cos_radians_two_le : Real.cos (radians 2) ≤ 0.9993909 := by
  have hx : radians 2 = Real.pi / 90 := by unfold radians; ring
  have hnn : (0:ℝ) ≤ Real.pi / 90 := by positivity
  have habs : |Real.pi / 90| ≤ 1 := by
    rw [abs_of_nonneg hnn]
    nlinarith [Real.pi_lt_d6]
  have hb := Real.cos_bound habs
  rw [abs_of_nonneg hnn] at hb
  have hub : Real.cos (Real.pi / 90) ≤ 1 - (Real.pi / 90) ^ 2 / 2 +
      (Real.pi / 90) ^ 4 * (5 / 96) := by
    have h2 := (abs_le.1 hb).2
    linarith
  have hsql : (3.141592:ℝ) ^ 2 ≤ Real.pi ^ 2 := by nlinarith [Real.pi_gt_d6]
  have hsqu : Real.pi ^ 2 ≤ (3.141593:ℝ) ^ 2 := by
    nlinarith [Real.pi_lt_d6, Real.pi_gt_d6]
  have hqu : Real.pi ^ 4 ≤ ((3.141593:ℝ) ^ 2) ^ 2 := by
    nlinarith [hsqu, sq_nonneg Real.pi, Real.pi_pos]
  have hexp1 : (Real.pi / 90) ^ 2 / 2 = Real.pi ^ 2 / 16200 := by ring
  have hexp2 : (Real.pi / 90) ^ 4 * (5 / 96) = Real.pi ^ 4 * (5 / 6298560000) := by
    ring
  rw [hexp1, hexp2] at hub
  rw [hx]
  nlinarith [hub, hsql, hqu]

theorem cos_radians_neg_two_le : Real.cos (radians (-2)) ≤ 0.9993909 := by
  rw [show radians (-2) = -(radians 2) from by unfold radians; ring, Real.cos_neg]
  exact cos_radians_two_le

theorem ce_children_T112 : splitChildren ceT 1 1 2 = [ceLow, ceHigh] := by
  norm_num [splitChildren, splitIntervals, ceT, ceLow, ceHigh]

theorem ce_children_H212 : splitChildren ceHigh 2 1 2 = [ceWHL, ceWHH, ceEHL, ceEHH] := by
  norm_num [splitChildren, splitIntervals, ceHigh, ceWHL, ceWHH, ceEHL, ceEHH]

theorem ce_children_T212 : splitChildren ceT 2 1 2 = [ceWL, ceWH, ceEL, ceEH] := by
  norm_num [splitChildren, splitIntervals, ceT, ceWL, ceWH, ceEL, ceEH]

theorem ceF1_slot1 : ceStackF1 1 = ceHigh := by
  unfold ceStackF1 _split_tesseroid
  have h := pushList_get (splitChildren ceT 1 1 2)
    ceStack0 (-1) 1 (by rw [ce_children_T112]; norm_num)
  rw [ce_children_T112] at h ⊢
  norm_num at h
  exact h

theorem ceF1_slot0 : ceStackF1 0 = ceLow := by
  unfold ceStackF1 _split_tesseroid
  have h := pushList_get (splitChildren ceT 1 1 2)
    ceStack0 (-1) 0 (by rw [ce_children_T112]; norm_num)
  rw [ce_children_T112] at h ⊢
  norm_num at h
  exact h

theorem ceF2_slot4 : ceStackF2 4 = ceEHH := by
  unfold ceStackF2 _split_tesseroid
  have h := pushList_get (splitChildren ceHigh 2 1 2)
    ceStackF1 (0) 3 (by rw [ce_children_H212]; norm_num)
  rw [ce_children_H212] at h ⊢
  norm_num at h
  exact h

theorem ceF2_slot3 : ceStackF2 3 = ceEHL := by
  unfold ceStackF2 _split_tesseroid
  have h := pushList_get (splitChildren ceHigh 2 1 2)
    ceStackF1 (0) 2 (by rw [ce_children_H212]; norm_num)
  rw [ce_children_H212] at h ⊢
  norm_num at h
  exact h

theorem ceF2_slot2 : ceStackF2 2 = ceWHH := by
  unfold ceStackF2 _split_tesseroid
  have h := pushList_get (splitChildren ceHigh 2 1 2)
    ceStackF1 (0) 1 (by rw [ce_children_H212]; norm_num)
  rw [ce_children_H212] at h ⊢
  norm_num at h
  exact h

theorem ceF2_slot1 : ceStackF2 1 = ceWHL := by
  unfold ceStackF2 _split_tesseroid
  have h := pushList_get (splitChildren ceHigh 2 1 2)
    ceStackF1 (0) 0 (by rw [ce_children_H212]; norm_num)
  rw [ce_children_H212] at h ⊢
  norm_num at h
  exact h

theorem ceF2_slot0 : ceStackF2 0 = ceLow := by
  have h : ceStackF2 0 = ceStackF1 0 := by
    unfold ceStackF2
    exact split_tesseroid_frame ceHigh (Or.inr rfl) (Or.inl rfl) (Or.inr rfl)
      ceStackF1 0 0 (Or.inl le_rfl)
  rw [h, ceF1_slot0]

theorem ceBN_slot3 : ceStackBN 3 = ceEH := by
  unfold ceStackBN _split_tesseroid
  have h := pushList_get (splitChildren ceT 2 1 2)
    ceStack0 (-1) 3 (by rw [ce_children_T212]; norm_num)
  rw [ce_children_T212] at h ⊢
  norm_num at h
  exact h

theorem ceBN_slot2 : ceStackBN 2 = ceEL := by
  unfold ceStackBN _split_tesseroid
  have h := pushList_get (splitChildren ceT 2 1 2)
    ceStack0 (-1) 2 (by rw [ce_children_T212]; norm_num)
  rw [ce_children_T212] at h ⊢
  norm_num at h
  exact h

theorem ceBN_slot1 : ceStackBN 1 = ceWH := by
  unfold ceStackBN _split_tesseroid
  have h := pushList_get (splitChildren ceT 2 1 2)
    ceStack0 (-1) 1 (by rw [ce_children_T212]; norm_num)
  rw [ce_children_T212] at h ⊢
  norm_num at h
  exact h

theorem ceBN_slot0 : ceStackBN 0 = ceWL := by
  unfold ceStackBN _split_tesseroid
  have h := pushList_get (splitChildren ceT 2 1 2)
    ceStack0 (-1) 0 (by rw [ce_children_T212]; norm_num)
  rw [ce_children_T212] at h ⊢
  norm_num at h
  exact h

theorem ce_dF_T : _distance_tesseroid_point cePF ceT = 109/1280 := by
  rw [dist_of_aligned cePF ceT (by norm_num [cePF, ceT]) (by norm_num [cePF, ceT])]
  norm_num [cePF, ceT]

theorem ce_dF_High : _distance_tesseroid_point cePF ceHigh = 117/2560 := by
  rw [dist_of_aligned cePF ceHigh (by norm_num [cePF, ceHigh]) (by norm_num [cePF, ceHigh])]
  norm_num [cePF, ceHigh]

theorem ce_dF_Low : _distance_tesseroid_point cePF ceLow = 319/2560 := by
  rw [dist_of_aligned cePF ceLow (by norm_num [cePF, ceLow]) (by norm_num [cePF, ceLow])]
  norm_num [cePF, ceLow]

theorem ce_dN_T : _distance_tesseroid_point cePN ceT = 103/1280 := by
  rw [dist_of_aligned cePN ceT (by norm_num [cePN, ceT]) (by norm_num [cePN, ceT])]
  norm_num [cePN, ceT]

theorem ce_low_F_EHH : (21/500 : ℝ) ≤ _distance_tesseroid_point cePF ceEHH := by
  refine dist_ge_of_equator cePF ceEHH 0.9993909 (21/500) rfl
    (by norm_num [ceEHH]) ?_ (by norm_num [cePF, ceEHH]) (by norm_num [cePF, ceEHH])
  rw [show (ceEHH.w + ceEHH.e) / 2 - cePF.lon = (2 : ℝ) from by norm_num [cePF, ceEHH]]
  exact cos_radians_two_le

theorem ce_low_F_EHL : (1/20 : ℝ) ≤ _distance_tesseroid_point cePF ceEHL := by
  refine dist_ge_of_equator cePF ceEHL 0.9993909 (1/20) rfl
    (by norm_num [ceEHL]) ?_ (by norm_num [cePF, ceEHL]) (by norm_num [cePF, ceEHL])
  rw [show (ceEHL.w + ceEHL.e) / 2 - cePF.lon = (2 : ℝ) from by norm_num [cePF, ceEHL]]
  exact cos_radians_two_le

theorem ce_low_F_WHH : (21/500 : ℝ) ≤ _distance_tesseroid_point cePF ceWHH := by
  refine dist_ge_of_equator cePF ceWHH 0.9993909 (21/500) rfl
    (by norm_num [ceWHH]) ?_ (by norm_num [cePF, ceWHH]) (by norm_num [cePF, ceWHH])
  rw [show (ceWHH.w + ceWHH.e) / 2 - cePF.lon = (-2 : ℝ) from by norm_num [cePF, ceWHH]]
  exact cos_radians_neg_two_le

theorem ce_low_F_WHL : (1/20 : ℝ) ≤ _distance_tesseroid_point cePF ceWHL := by
  refine dist_ge_of_equator cePF ceWHL 0.9993909 (1/20) rfl
    (by norm_num [ceWHL]) ?_ (by norm_num [cePF, ceWHL]) (by norm_num [cePF, ceWHL])
  rw [show (ceWHL.w + ceWHL.e) / 2 - cePF.lon = (-2 : ℝ) from by norm_num [cePF, ceWHL]]
  exact cos_radians_neg_two_le

theorem ce_low_B_EH : (1/20 : ℝ) ≤ _distance_tesseroid_point cePF ceEH := by
  refine dist_ge_of_equator cePF ceEH 0.9993909 (1/20) rfl
    (by norm_num [ceEH]) ?_ (by norm_num [cePF, ceEH]) (by norm_num [cePF, ceEH])
  rw [show (ceEH.w + ceEH.e) / 2 - cePF.lon = (2 : ℝ) from by norm_num [cePF, ceEH]]
  exact cos_radians_two_le

theorem ce_low_B_EL : (3/50 : ℝ) ≤ _distance_tesseroid_point cePF ceEL := by
  refine dist_ge_of_equator cePF ceEL 0.9993909 (3/50) rfl
    (by norm_num [ceEL]) ?_ (by norm_num [cePF, ceEL]) (by norm_num [cePF, ceEL])
  rw [show (ceEL.w + ceEL.e) / 2 - cePF.lon = (2 : ℝ) from by norm_num [cePF, ceEL]]
  exact cos_radians_two_le

theorem ce_low_B_WH : (1/20 : ℝ) ≤ _distance_tesseroid_point cePF ceWH := by
  refine dist_ge_of_equator cePF ceWH 0.9993909 (1/20) rfl
    (by norm_num [ceWH]) ?_ (by norm_num [cePF, ceWH]) (by norm_num [cePF, ceWH])
  rw [show (ceWH.w + ceWH.e) / 2 - cePF.lon = (-2 : ℝ) from by norm_num [cePF, ceWH]]
  exact cos_radians_neg_two_le

theorem ce_low_B_WL : (3/50 : ℝ) ≤ _distance_tesseroid_point cePF ceWL := by
  refine dist_ge_of_equator cePF ceWL 0.9993909 (3/50) rfl
    (by norm_num [ceWL]) ?_ (by norm_num [cePF, ceWL]) (by norm_num [cePF, ceWL])
  rw [show (ceWL.w + ceWL.e) / 2 - cePF.lon = (-2 : ℝ) from by norm_num [cePF, ceWL]]
  exact cos_radians_neg_two_le

theorem ce_low_N_EH : (6/125 : ℝ) ≤ _distance_tesseroid_point cePN ceEH := by
  refine dist_ge_of_equator cePN ceEH 0.9993909 (6/125) rfl
    (by norm_num [ceEH]) ?_ (by norm_num [cePN, ceEH]) (by norm_num [cePN, ceEH])
  rw [show (ceEH.w + ceEH.e) / 2 - cePN.lon = (2 : ℝ) from by norm_num [cePN, ceEH]]
  exact cos_radians_two_le

theorem ce_low_N_EL : (3/50 : ℝ) ≤ _distance_tesseroid_point cePN ceEL := by
  refine dist_ge_of_equator cePN ceEL 0.9993909 (3/50) rfl
    (by norm_num [ceEL]) ?_ (by norm_num [cePN, ceEL]) (by norm_num [cePN, ceEL])
  rw [show (ceEL.w + ceEL.e) / 2 - cePN.lon = (2 : ℝ) from by norm_num [cePN, ceEL]]
  exact cos_radians_two_le

theorem ce_low_N_WH : (6/125 : ℝ) ≤ _distance_tesseroid_point cePN ceWH := by
  refine dist_ge_of_equator cePN ceWH 0.9993909 (6/125) rfl
    (by norm_num [ceWH]) ?_ (by norm_num [cePN, ceWH]) (by norm_num [cePN, ceWH])
  rw [show (ceWH.w + ceWH.e) / 2 - cePN.lon = (-2 : ℝ) from by norm_num [cePN, ceWH]]
  exact cos_radians_neg_two_le

theorem ce_low_N_WL : (3/50 : ℝ) ≤ _distance_tesseroid_point cePN ceWL := by
  refine dist_ge_of_equator cePN ceWL 0.9993909 (3/50) rfl
    (by norm_num [ceWL]) ?_ (by norm_num [cePN, ceWL]) (by norm_num [cePN, ceWL])
  rw [show (ceWL.w + ceWL.e) / 2 - cePN.lon = (-2 : ℝ) from by norm_num [cePN, ceWL]]
  exact cos_radians_neg_two_le


theorem ceF_step1 :
    adaptiveStep cePF (3/5) 8 32 true ⟨ceStack0, 0, (fun _ => default), 0⟩ =
    .next ⟨ceStackF1, 1, (fun _ => default), 0⟩ := by
  have hpop : ceStack0 0 = ceT := by
    unfold ceStack0
    simp
  have hdlon : (_tesseroid_dimensions ceT).1 = radians 8 := by
    norm_num [_tesseroid_dimensions, ceT]
  have hdlat : (_tesseroid_dimensions ceT).2.1 = radians (1/4) := by
    norm_num [_tesseroid_dimensions, ceT]
  have hdrad : (_tesseroid_dimensions ceT).2.2 = 101/640 := by
    norm_num [_tesseroid_dimensions, ceT]
  have flon : splitFactor (3/5) (_distance_tesseroid_point cePF ceT)
      (_tesseroid_dimensions ceT).1 = 1 := by
    rw [hdlon, ce_dF_T]
    refine splitFactor_eq_one ?_ ?_
    · unfold radians; positivity
    · unfold radians; nlinarith [Real.pi_lt_d6]
  have flat : splitFactor (3/5) (_distance_tesseroid_point cePF ceT)
      (_tesseroid_dimensions ceT).2.1 = 1 := by
    rw [hdlat, ce_dF_T]
    refine splitFactor_eq_one ?_ ?_
    · unfold radians; positivity
    · unfold radians; nlinarith [Real.pi_lt_d6]
  have frad : splitFactor (3/5) (_distance_tesseroid_point cePF ceT)
      (_tesseroid_dimensions ceT).2.2 = 2 := by
    rw [hdrad, ce_dF_T]
    exact splitFactor_eq_two (by norm_num) (by norm_num)
  unfold ceStackF1
  simp only [adaptiveStep, hpop, flon, flat, frad]
  norm_num [split_tesseroid_top]

theorem ceF_step2 :
    adaptiveStep cePF (3/5) 8 32 true ⟨ceStackF1, 1, (fun _ => default), 0⟩ =
    .next ⟨ceStackF2, 4, (fun _ => default), 0⟩ := by
  have hdlon : (_tesseroid_dimensions ceHigh).1 = radians 8 := by
    norm_num [_tesseroid_dimensions, ceHigh]
  have hdlat : (_tesseroid_dimensions ceHigh).2.1 = radians (1/4) := by
    norm_num [_tesseroid_dimensions, ceHigh]
  have hdrad : (_tesseroid_dimensions ceHigh).2.2 = 101/1280 := by
    norm_num [_tesseroid_dimensions, ceHigh]
  have flon : splitFactor (3/5) (_distance_tesseroid_point cePF ceHigh)
      (_tesseroid_dimensions ceHigh).1 = 2 := by
    rw [hdlon, ce_dF_High]
    refine splitFactor_eq_two ?_ ?_
    · unfold radians; positivity
    · unfold radians; nlinarith [Real.pi_gt_d6]
  have flat : splitFactor (3/5) (_distance_tesseroid_point cePF ceHigh)
      (_tesseroid_dimensions ceHigh).2.1 = 1 := by
    rw [hdlat, ce_dF_High]
    refine splitFactor_eq_one ?_ ?_
    · unfold radians; positivity
    · unfold radians; nlinarith [Real.pi_lt_d6]
  have frad : splitFactor (3/5) (_distance_tesseroid_point cePF ceHigh)
      (_tesseroid_dimensions ceHigh).2.2 = 2 := by
    rw [hdrad, ce_dF_High]
    exact splitFactor_eq_two (by norm_num) (by norm_num)
  unfold ceStackF2
  simp only [adaptiveStep, ceF1_slot1, flon, flat, frad]
  norm_num [split_tesseroid_top]

theorem ceF_step3 :
    adaptiveStep cePF (3/5) 8 32 true ⟨ceStackF2, 4, (fun _ => default), 0⟩ =
    .next ⟨ceStackF2, 3, Function.update ((fun _ => default)) 0 ceEHH, 1⟩ := by
  have hdlon : (_tesseroid_dimensions ceEHH).1 = radians 4 := by
    norm_num [_tesseroid_dimensions, ceEHH]
  have hdlat : (_tesseroid_dimensions ceEHH).2.1 = radians (1/4) := by
    norm_num [_tesseroid_dimensions, ceEHH]
  have hdrad : (_tesseroid_dimensions ceEHH).2.2 = 101/2560 := by
    norm_num [_tesseroid_dimensions, ceEHH]
  have flon : splitFactor (3/5) (_distance_tesseroid_point cePF ceEHH)
      (_tesseroid_dimensions ceEHH).1 = 1 := by
    rw [hdlon]
    refine accept_of_ge ?_ ?_ ce_low_F_EHH
    · unfold radians; positivity
    · unfold radians; nlinarith [Real.pi_lt_d6]
  have flat : splitFactor (3/5) (_distance_tesseroid_point cePF ceEHH)
      (_tesseroid_dimensions ceEHH).2.1 = 1 := by
    rw [hdlat]
    refine accept_of_ge ?_ ?_ ce_low_F_EHH
    · unfold radians; positivity
    · unfold radians; nlinarith [Real.pi_lt_d6]
  have frad : splitFactor (3/5) (_distance_tesseroid_point cePF ceEHH)
      (_tesseroid_dimensions ceEHH).2.2 = 1 := by
    rw [hdrad]
    exact accept_of_ge (by norm_num) (by norm_num) ce_low_F_EHH
  simp only [adaptiveStep, ceF2_slot4, flon, flat, frad]
  norm_num

theorem ceF_step4 :
    adaptiveStep cePF (3/5) 8 32 true ⟨ceStackF2, 3, Function.update ((fun _ => default)) 0 ceEHH, 1⟩ =
    .next ⟨ceStackF2, 2, Function.update (Function.update ((fun _ => default)) 0 ceEHH) 1 ceEHL, 2⟩ := by
  have hdlon : (_tesseroid_dimensions ceEHL).1 = 2459/2560 * radians 4 := by
    norm_num [_tesseroid_dimensions, ceEHL]
  have hdlat : (_tesseroid_dimensions ceEHL).2.1 = 2459/2560 * radians (1/4) := by
    norm_num [_tesseroid_dimensions, ceEHL]
  have hdrad : (_tesseroid_dimensions ceEHL).2.2 = 101/2560 := by
    norm_num [_tesseroid_dimensions, ceEHL]
  have flon : splitFactor (3/5) (_distance_tesseroid_point cePF ceEHL)
      (_tesseroid_dimensions ceEHL).1 = 1 := by
    rw [hdlon]
    refine accept_of_ge ?_ ?_ ce_low_F_EHL
    · unfold radians; positivity
    · unfold radians; nlinarith [Real.pi_lt_d6]
  have flat : splitFactor (3/5) (_distance_tesseroid_point cePF ceEHL)
      (_tesseroid_dimensions ceEHL).2.1 = 1 := by
    rw [hdlat]
    refine accept_of_ge ?_ ?_ ce_low_F_EHL
    · unfold radians; positivity
    · unfold radians; nlinarith [Real.pi_lt_d6]
  have frad : splitFactor (3/5) (_distance_tesseroid_point cePF ceEHL)
      (_tesseroid_dimensions ceEHL).2.2 = 1 := by
    rw [hdrad]
    exact accept_of_ge (by norm_num) (by norm_num) ce_low_F_EHL
  simp only [adaptiveStep, ceF2_slot3, flon, flat, frad]
  norm_num

theorem ceF_step5 :
    adaptiveStep cePF (3/5) 8 32 true ⟨ceStackF2, 2, Function.update (Function.update ((fun _ => default)) 0 ceEHH) 1 ceEHL, 2⟩ =
    .next ⟨ceStackF2, 1, Function.update (Function.update (Function.update ((fun _ => default)) 0 ceEHH) 1 ceEHL) 2 ceWHH, 3⟩ := by
  have hdlon : (_tesseroid_dimensions ceWHH).1 = radians 4 := by
    norm_num [_tesseroid_dimensions, ceWHH]
  have hdlat : (_tesseroid_dimensions ceWHH).2.1 = radians (1/4) := by
    norm_num [_tesseroid_dimensions, ceWHH]
  have hdrad : (_tesseroid_dimensions ceWHH).2.2 = 101/2560 := by
    norm_num [_tesseroid_dimensions, ceWHH]
  have flon : splitFactor (3/5) (_distance_tesseroid_point cePF ceWHH)
      (_tesseroid_dimensions ceWHH).1 = 1 := by
    rw [hdlon]
    refine accept_of_ge ?_ ?_ ce_low_F_WHH
    · unfold radians; positivity
    · unfold radians; nlinarith [Real.pi_lt_d6]
  have flat : splitFactor (3/5) (_distance_tesseroid_point cePF ceWHH)
      (_tesseroid_dimensions ceWHH).2.1 = 1 := by
    rw [hdlat]
    refine accept_of_ge ?_ ?_ ce_low_F_WHH
    · unfold radians; positivity
    · unfold radians; nlinarith [Real.pi_lt_d6]
  have frad : splitFactor (3/5) (_distance_tesseroid_point cePF ceWHH)
      (_tesseroid_dimensions ceWHH).2.2 = 1 := by
    rw [hdrad]
    exact accept_of_ge (by norm_num) (by norm_num) ce_low_F_WHH
  simp only [adaptiveStep, ceF2_slot2, flon, flat, frad]
  norm_num

theorem ceF_step6 :
    adaptiveStep cePF (3/5) 8 32 true ⟨ceStackF2, 1, Function.update (Function.update (Function.update ((fun _ => default)) 0 ceEHH) 1 ceEHL) 2 ceWHH, 3⟩ =
    .next ⟨ceStackF2, 0, Function.update (Function.update (Function.update (Function.update ((fun _ => default)) 0 ceEHH) 1 ceEHL) 2 ceWHH) 3 ceWHL, 4⟩ := by
  have hdlon : (_tesseroid_dimensions ceWHL).1 = 2459/2560 * radians 4 := by
    norm_num [_tesseroid_dimensions, ceWHL]
  have hdlat : (_tesseroid_dimensions ceWHL).2.1 = 2459/2560 * radians (1/4) := by
    norm_num [_tesseroid_dimensions, ceWHL]
  have hdrad : (_tesseroid_dimensions ceWHL).2.2 = 101/2560 := by
    norm_num [_tesseroid_dimensions, ceWHL]
  have flon : splitFactor (3/5) (_distance_tesseroid_point cePF ceWHL)
      (_tesseroid_dimensions ceWHL).1 = 1 := by
    rw [hdlon]
    refine accept_of_ge ?_ ?_ ce_low_F_WHL
    · unfold radians; positivity
    · unfold radians; nlinarith [Real.pi_lt_d6]
  have flat : splitFactor (3/5) (_distance_tesseroid_point cePF ceWHL)
      (_tesseroid_dimensions ceWHL).2.1 = 1 := by
    rw [hdlat]
    refine accept_of_ge ?_ ?_ ce_low_F_WHL
    · unfold radians; positivity
    · unfold radians; nlinarith [Real.pi_lt_d6]
  have frad : splitFactor (3/5) (_distance_tesseroid_point cePF ceWHL)
      (_tesseroid_dimensions ceWHL).2.2 = 1 := by
    rw [hdrad]
    exact accept_of_ge (by norm_num) (by norm_num) ce_low_F_WHL
  simp only [adaptiveStep, ceF2_slot1, flon, flat, frad]
  norm_num

theorem ceF_step7 :
    adaptiveStep cePF (3/5) 8 32 true ⟨ceStackF2, 0, Function.update (Function.update (Function.update (Function.update ((fun _ => default)) 0 ceEHH) 1 ceEHL) 2 ceWHH) 3 ceWHL, 4⟩ =
    .next ⟨ceStackF2, -1, Function.update (Function.update (Function.update (Function.update (Function.update ((fun _ => default)) 0 ceEHH) 1 ceEHL) 2 ceWHH) 3 ceWHL) 4 ceLow, 5⟩ := by
  have hdlon : (_tesseroid_dimensions ceLow).1 = 1179/1280 * radians 8 := by
    norm_num [_tesseroid_dimensions, ceLow]
  have hdlat : (_tesseroid_dimensions ceLow).2.1 = 1179/1280 * radians (1/4) := by
    norm_num [_tesseroid_dimensions, ceLow]
  have hdrad : (_tesseroid_dimensions ceLow).2.2 = 101/1280 := by
    norm_num [_tesseroid_dimensions, ceLow]
  have flon : splitFactor (3/5) (_distance_tesseroid_point cePF ceLow)
      (_tesseroid_dimensions ceLow).1 = 1 := by
    rw [hdlon]
    refine accept_of_ge ?_ ?_ (le_of_eq ce_dF_Low.symm)
    · unfold radians; positivity
    · unfold radians; nlinarith [Real.pi_lt_d6]
  have flat : splitFactor (3/5) (_distance_tesseroid_point cePF ceLow)
      (_tesseroid_dimensions ceLow).2.1 = 1 := by
    rw [hdlat]
    refine accept_of_ge ?_ ?_ (le_of_eq ce_dF_Low.symm)
    · unfold radians; positivity
    · unfold radians; nlinarith [Real.pi_lt_d6]
  have frad : splitFactor (3/5) (_distance_tesseroid_point cePF ceLow)
      (_tesseroid_dimensions ceLow).2.2 = 1 := by
    rw [hdrad]
    exact accept_of_ge (by norm_num) (by norm_num) (le_of_eq ce_dF_Low.symm)
  simp only [adaptiveStep, ceF2_slot0, flon, flat, frad]
  norm_num

theorem ceF_step8 :
    adaptiveStep cePF (3/5) 8 32 true ⟨ceStackF2, -1, Function.update (Function.update (Function.update (Function.update (Function.update ((fun _ => default)) 0 ceEHH) 1 ceEHL) 2 ceWHH) 3 ceWHL) 4 ceLow, 5⟩ =
    .finished ⟨5, 0, ceStackF2, Function.update (Function.update (Function.update (Function.update (Function.update ((fun _ => default)) 0 ceEHH) 1 ceEHL) 2 ceWHH) 3 ceWHL) 4 ceLow⟩ := by
  simp only [adaptiveStep]
  norm_num

theorem ceB_step1 :
    adaptiveStep cePF (5/8) 8 32 true ⟨ceStack0, 0, (fun _ => default), 0⟩ =
    .next ⟨ceStackBN, 3, (fun _ => default), 0⟩ := by
  have hpop : ceStack0 0 = ceT := by
    unfold ceStack0
    simp
  have hdlon : (_tesseroid_dimensions ceT).1 = radians 8 := by
    norm_num [_tesseroid_dimensions, ceT]
  have hdlat : (_tesseroid_dimensions ceT).2.1 = radians (1/4) := by
    norm_num [_tesseroid_dimensions, ceT]
  have hdrad : (_tesseroid_dimensions ceT).2.2 = 101/640 := by
    norm_num [_tesseroid_dimensions, ceT]
  have flon : splitFactor (5/8) (_distance_tesseroid_point cePF ceT)
      (_tesseroid_dimensions ceT).1 = 2 := by
    rw [hdlon, ce_dF_T]
    refine splitFactor_eq_two ?_ ?_
    · unfold radians; positivity
    · unfold radians; nlinarith [Real.pi_gt_d6]
  have flat : splitFactor (5/8) (_distance_tesseroid_point cePF ceT)
      (_tesseroid_dimensions ceT).2.1 = 1 := by
    rw [hdlat, ce_dF_T]
    refine splitFactor_eq_one ?_ ?_
    · unfold radians; positivity
    · unfold radians; nlinarith [Real.pi_lt_d6]
  have frad : splitFactor (5/8) (_distance_tesseroid_point cePF ceT)
      (_tesseroid_dimensions ceT).2.2 = 2 := by
    rw [hdrad, ce_dF_T]
    exact splitFactor_eq_two (by norm_num) (by norm_num)
  unfold ceStackBN
  simp only [adaptiveStep, hpop, flon, flat, frad]
  norm_num [split_tesseroid_top]

theorem ceB_step2 :
    adaptiveStep cePF (5/8) 8 32 true ⟨ceStackBN, 3, (fun _ => default), 0⟩ =
    .next ⟨ceStackBN, 2, Function.update ((fun _ => default)) 0 ceEH, 1⟩ := by
  have hdlon : (_tesseroid_dimensions ceEH).1 = radians 4 := by
    norm_num [_tesseroid_dimensions, ceEH]
  have hdlat : (_tesseroid_dimensions ceEH).2.1 = radians (1/4) := by
    norm_num [_tesseroid_dimensions, ceEH]
  have hdrad : (_tesseroid_dimensions ceEH).2.2 = 101/1280 := by
    norm_num [_tesseroid_dimensions, ceEH]
  have flon : splitFactor (5/8) (_distance_tesseroid_point cePF ceEH)
      (_tesseroid_dimensions ceEH).1 = 1 := by
    rw [hdlon]
    refine accept_of_ge ?_ ?_ ce_low_B_EH
    · unfold radians; positivity
    · unfold radians; nlinarith [Real.pi_lt_d6]
  have flat : splitFactor (5/8) (_distance_tesseroid_point cePF ceEH)
      (_tesseroid_dimensions ceEH).2.1 = 1 := by
    rw [hdlat]
    refine accept_of_ge ?_ ?_ ce_low_B_EH
    · unfold radians; positivity
    · unfold radians; nlinarith [Real.pi_lt_d6]
  have frad : splitFactor (5/8) (_distance_tesseroid_point cePF ceEH)
      (_tesseroid_dimensions ceEH).2.2 = 1 := by
    rw [hdrad]
    exact accept_of_ge (by norm_num) (by norm_num) ce_low_B_EH
  simp only [adaptiveStep, ceBN_slot3, flon, flat, frad]
  norm_num

theorem ceB_step3 :
    adaptiveStep cePF (5/8) 8 32 true ⟨ceStackBN, 2, Function.update ((fun _ => default)) 0 ceEH, 1⟩ =
    .next ⟨ceStackBN, 1, Function.update (Function.update ((fun _ => default)) 0 ceEH) 1 ceEL, 2⟩ := by
  have hdlon : (_tesseroid_dimensions ceEL).1 = 1179/1280 * radians 4 := by
    norm_num [_tesseroid_dimensions, ceEL]
  have hdlat : (_tesseroid_dimensions ceEL).2.1 = 1179/1280 * radians (1/4) := by
    norm_num [_tesseroid_dimensions, ceEL]
  have hdrad : (_tesseroid_dimensions ceEL).2.2 = 101/1280 := by
    norm_num [_tesseroid_dimensions, ceEL]
  have flon : splitFactor (5/8) (_distance_tesseroid_point cePF ceEL)
      (_tesseroid_dimensions ceEL).1 = 1 := by
    rw [hdlon]
    refine accept_of_ge ?_ ?_ ce_low_B_EL
    · unfold radians; positivity
    · unfold radians; nlinarith [Real.pi_lt_d6]
  have flat : splitFactor (5/8) (_distance_tesseroid_point cePF ceEL)
      (_tesseroid_dimensions ceEL).2.1 = 1 := by
    rw [hdlat]
    refine accept_of_ge ?_ ?_ ce_low_B_EL
    · unfold radians; positivity
    · unfold radians; nlinarith [Real.pi_lt_d6]
  have frad : splitFactor (5/8) (_distance_tesseroid_point cePF ceEL)
      (_tesseroid_dimensions ceEL).2.2 = 1 := by
    rw [hdrad]
    exact accept_of_ge (by norm_num) (by norm_num) ce_low_B_EL
  simp only [adaptiveStep, ceBN_slot2, flon, flat, frad]
  norm_num

theorem ceB_step4 :
    adaptiveStep cePF (5/8) 8 32 true ⟨ceStackBN, 1, Function.update (Function.update ((fun _ => default)) 0 ceEH) 1 ceEL, 2⟩ =
    .next ⟨ceStackBN, 0, Function.update (Function.update (Function.update ((fun _ => default)) 0 ceEH) 1 ceEL) 2 ceWH, 3⟩ := by
  have hdlon : (_tesseroid_dimensions ceWH).1 = radians 4 := by
    norm_num [_tesseroid_dimensions, ceWH]
  have hdlat : (_tesseroid_dimensions ceWH).2.1 = radians (1/4) := by
    norm_num [_tesseroid_dimensions, ceWH]
  have hdrad : (_tesseroid_dimensions ceWH).2.2 = 101/1280 := by
    norm_num [_tesseroid_dimensions, ceWH]
  have flon : splitFactor (5/8) (_distance_tesseroid_point cePF ceWH)
      (_tesseroid_dimensions ceWH).1 = 1 := by
    rw [hdlon]
    refine accept_of_ge ?_ ?_ ce_low_B_WH
    · unfold radians; positivity
    · unfold radians; nlinarith [Real.pi_lt_d6]
  have flat : splitFactor (5/8) (_distance_tesseroid_point cePF ceWH)
      (_tesseroid_dimensions ceWH).2.1 = 1 := by
    rw [hdlat]
    refine accept_of_ge ?_ ?_ ce_low_B_WH
    · unfold radians; positivity
    · unfold radians; nlinarith [Real.pi_lt_d6]
  have frad : splitFactor (5/8) (_distance_tesseroid_point cePF ceWH)
      (_tesseroid_dimensions ceWH).2.2 = 1 := by
    rw [hdrad]
    exact accept_of_ge (by norm_num) (by norm_num) ce_low_B_WH
  simp only [adaptiveStep, ceBN_slot1, flon, flat, frad]
  norm_num

theorem ceB_step5 :
    adaptiveStep cePF (5/8) 8 32 true ⟨ceStackBN, 0, Function.update (Function.update (Function.update ((fun _ => default)) 0 ceEH) 1 ceEL) 2 ceWH, 3⟩ =
    .next ⟨ceStackBN, -1, Function.update (Function.update (Function.update (Function.update ((fun _ => default)) 0 ceEH) 1 ceEL) 2 ceWH) 3 ceWL, 4⟩ := by
  have hdlon : (_tesseroid_dimensions ceWL).1 = 1179/1280 * radians 4 := by
    norm_num [_tesseroid_dimensions, ceWL]
  have hdlat : (_tesseroid_dimensions ceWL).2.1 = 1179/1280 * radians (1/4) := by
    norm_num [_tesseroid_dimensions, ceWL]
  have hdrad : (_tesseroid_dimensions ceWL).2.2 = 101/1280 := by
    norm_num [_tesseroid_dimensions, ceWL]
  have flon : splitFactor (5/8) (_distance_tesseroid_point cePF ceWL)
      (_tesseroid_dimensions ceWL).1 = 1 := by
    rw [hdlon]
    refine accept_of_ge ?_ ?_ ce_low_B_WL
    · unfold radians; positivity
    · unfold radians; nlinarith [Real.pi_lt_d6]
  have flat : splitFactor (5/8) (_distance_tesseroid_point cePF ceWL)
      (_tesseroid_dimensions ceWL).2.1 = 1 := by
    rw [hdlat]
    refine accept_of_ge ?_ ?_ ce_low_B_WL
    · unfold radians; positivity
    · unfold radians; nlinarith [Real.pi_lt_d6]
  have frad : splitFactor (5/8) (_distance_tesseroid_point cePF ceWL)
      (_tesseroid_dimensions ceWL).2.2 = 1 := by
    rw [hdrad]
    exact accept_of_ge (by norm_num) (by norm_num) ce_low_B_WL
  simp only [adaptiveStep, ceBN_slot0, flon, flat, frad]
  norm_num

theorem ceB_step6 :
    adaptiveStep cePF (5/8) 8 32 true ⟨ceStackBN, -1, Function.update (Function.update (Function.update (Function.update ((fun _ => default)) 0 ceEH) 1 ceEL) 2 ceWH) 3 ceWL, 4⟩ =
    .finished ⟨4, 0, ceStackBN, Function.update (Function.update (Function.update (Function.update ((fun _ => default)) 0 ceEH) 1 ceEL) 2 ceWH) 3 ceWL⟩ := by
  simp only [adaptiveStep]
  norm_num

theorem ceN_step1 :
    adaptiveStep cePN (3/5) 8 32 true ⟨ceStack0, 0, (fun _ => default), 0⟩ =
    .next ⟨ceStackBN, 3, (fun _ => default), 0⟩ := by
  have hpop : ceStack0 0 = ceT := by
    unfold ceStack0
    simp
  have hdlon : (_tesseroid_dimensions ceT).1 = radians 8 := by
    norm_num [_tesseroid_dimensions, ceT]
  have hdlat : (_tesseroid_dimensions ceT).2.1 = radians (1/4) := by
    norm_num [_tesseroid_dimensions, ceT]
  have hdrad : (_tesseroid_dimensions ceT).2.2 = 101/640 := by
    norm_num [_tesseroid_dimensions, ceT]
  have flon : splitFactor (3/5) (_distance_tesseroid_point cePN ceT)
      (_tesseroid_dimensions ceT).1 = 2 := by
    rw [hdlon, ce_dN_T]
    refine splitFactor_eq_two ?_ ?_
    · unfold radians; positivity
    · unfold radians; nlinarith [Real.pi_gt_d6]
  have flat : splitFactor (3/5) (_distance_tesseroid_point cePN ceT)
      (_tesseroid_dimensions ceT).2.1 = 1 := by
    rw [hdlat, ce_dN_T]
    refine splitFactor_eq_one ?_ ?_
    · unfold radians; positivity
    · unfold radians; nlinarith [Real.pi_lt_d6]
  have frad : splitFactor (3/5) (_distance_tesseroid_point cePN ceT)
      (_tesseroid_dimensions ceT).2.2 = 2 := by
    rw [hdrad, ce_dN_T]
    exact splitFactor_eq_two (by norm_num) (by norm_num)
  unfold ceStackBN
  simp only [adaptiveStep, hpop, flon, flat, frad]
  norm_num [split_tesseroid_top]

theorem ceN_step2 :
    adaptiveStep cePN (3/5) 8 32 true ⟨ceStackBN, 3, (fun _ => default), 0⟩ =
    .next ⟨ceStackBN, 2, Function.update ((fun _ => default)) 0 ceEH, 1⟩ := by
  have hdlon : (_tesseroid_dimensions ceEH).1 = radians 4 := by
    norm_num [_tesseroid_dimensions, ceEH]
  have hdlat : (_tesseroid_dimensions ceEH).2.1 = radians (1/4) := by
    norm_num [_tesseroid_dimensions, ceEH]
  have hdrad : (_tesseroid_dimensions ceEH).2.2 = 101/1280 := by
    norm_num [_tesseroid_dimensions, ceEH]
  have flon : splitFactor (3/5) (_distance_tesseroid_point cePN ceEH)
      (_tesseroid_dimensions ceEH).1 = 1 := by
    rw [hdlon]
    refine accept_of_ge ?_ ?_ ce_low_N_EH
    · unfold radians; positivity
    · unfold radians; nlinarith [Real.pi_lt_d6]
  have flat : splitFactor (3/5) (_distance_tesseroid_point cePN ceEH)
      (_tesseroid_dimensions ceEH).2.1 = 1 := by
    rw [hdlat]
    refine accept_of_ge ?_ ?_ ce_low_N_EH
    · unfold radians; positivity
    · unfold radians; nlinarith [Real.pi_lt_d6]
  have frad : splitFactor (3/5) (_distance_tesseroid_point cePN ceEH)
      (_tesseroid_dimensions ceEH).2.2 = 1 := by
    rw [hdrad]
    exact accept_of_ge (by norm_num) (by norm_num) ce_low_N_EH
  simp only [adaptiveStep, ceBN_slot3, flon, flat, frad]
  norm_num

theorem ceN_step3 :
    adaptiveStep cePN (3/5) 8 32 true ⟨ceStackBN, 2, Function.update ((fun _ => default)) 0 ceEH, 1⟩ =
    .next ⟨ceStackBN, 1, Function.update (Function.update ((fun _ => default)) 0 ceEH) 1 ceEL, 2⟩ := by
  have hdlon : (_tesseroid_dimensions ceEL).1 = 1179/1280 * radians 4 := by
    norm_num [_tesseroid_dimensions, ceEL]
  have hdlat : (_tesseroid_dimensions ceEL).2.1 = 1179/1280 * radians (1/4) := by
    norm_num [_tesseroid_dimensions, ceEL]
  have hdrad : (_tesseroid_dimensions ceEL).2.2 = 101/1280 := by
    norm_num [_tesseroid_dimensions, ceEL]
  have flon : splitFactor (3/5) (_distance_tesseroid_point cePN ceEL)
      (_tesseroid_dimensions ceEL).1 = 1 := by
    rw [hdlon]
    refine accept_of_ge ?_ ?_ ce_low_N_EL
    · unfold radians; positivity
    · unfold radians; nlinarith [Real.pi_lt_d6]
  have flat : splitFactor (3/5) (_distance_tesseroid_point cePN ceEL)
      (_tesseroid_dimensions ceEL).2.1 = 1 := by
    rw [hdlat]
    refine accept_of_ge ?_ ?_ ce_low_N_EL
    · unfold radians; positivity
    · unfold radians; nlinarith [Real.pi_lt_d6]
  have frad : splitFactor (3/5) (_distance_tesseroid_point cePN ceEL)
      (_tesseroid_dimensions ceEL).2.2 = 1 := by
    rw [hdrad]
    exact accept_of_ge (by norm_num) (by norm_num) ce_low_N_EL
  simp only [adaptiveStep, ceBN_slot2, flon, flat, frad]
  norm_num

theorem ceN_step4 :
    adaptiveStep cePN (3/5) 8 32 true ⟨ceStackBN, 1, Function.update (Function.update ((fun _ => default)) 0 ceEH) 1 ceEL, 2⟩ =
    .next ⟨ceStackBN, 0, Function.update (Function.update (Function.update ((fun _ => default)) 0 ceEH) 1 ceEL) 2 ceWH, 3⟩ := by
  have hdlon : (_tesseroid_dimensions ceWH).1 = radians 4 := by
    norm_num [_tesseroid_dimensions, ceWH]
  have hdlat : (_tesseroid_dimensions ceWH).2.1 = radians (1/4) := by
    norm_num [_tesseroid_dimensions, ceWH]
  have hdrad : (_tesseroid_dimensions ceWH).2.2 = 101/1280 := by
    norm_num [_tesseroid_dimensions, ceWH]
  have flon : splitFactor (3/5) (_distance_tesseroid_point cePN ceWH)
      (_tesseroid_dimensions ceWH).1 = 1 := by
    rw [hdlon]
    refine accept_of_ge ?_ ?_ ce_low_N_WH
    · unfold radians; positivity
    · unfold radians; nlinarith [Real.pi_lt_d6]
  have flat : splitFactor (3/5) (_distance_tesseroid_point cePN ceWH)
      (_tesseroid_dimensions ceWH).2.1 = 1 := by
    rw [hdlat]
    refine accept_of_ge ?_ ?_ ce_low_N_WH
    · unfold radians; positivity
    · unfold radians; nlinarith [Real.pi_lt_d6]
  have frad : splitFactor (3/5) (_distance_tesseroid_point cePN ceWH)
      (_tesseroid_dimensions ceWH).2.2 = 1 := by
    rw [hdrad]
    exact accept_of_ge (by norm_num) (by norm_num) ce_low_N_WH
  simp only [adaptiveStep, ceBN_slot1, flon, flat, frad]
  norm_num

theorem ceN_step5 :
    adaptiveStep cePN (3/5) 8 32 true ⟨ceStackBN, 0, Function.update (Function.update (Function.update ((fun _ => default)) 0 ceEH) 1 ceEL) 2 ceWH, 3⟩ =
    .next ⟨ceStackBN, -1, Function.update (Function.update (Function.update (Function.update ((fun _ => default)) 0 ceEH) 1 ceEL) 2 ceWH) 3 ceWL, 4⟩ := by
  have hdlon : (_tesseroid_dimensions ceWL).1 = 1179/1280 * radians 4 := by
    norm_num [_tesseroid_dimensions, ceWL]
  have hdlat : (_tesseroid_dimensions ceWL).2.1 = 1179/1280 * radians (1/4) := by
    norm_num [_tesseroid_dimensions, ceWL]
  have hdrad : (_tesseroid_dimensions ceWL).2.2 = 101/1280 := by
    norm_num [_tesseroid_dimensions, ceWL]
  have flon : splitFactor (3/5) (_distance_tesseroid_point cePN ceWL)
      (_tesseroid_dimensions ceWL).1 = 1 := by
    rw [hdlon]
    refine accept_of_ge ?_ ?_ ce_low_N_WL
    · unfold radians; positivity
    · unfold radians; nlinarith [Real.pi_lt_d6]
  have flat : splitFactor (3/5) (_distance_tesseroid_point cePN ceWL)
      (_tesseroid_dimensions ceWL).2.1 = 1 := by
    rw [hdlat]
    refine accept_of_ge ?_ ?_ ce_low_N_WL
    · unfold radians; positivity
    · unfold radians; nlinarith [Real.pi_lt_d6]
  have frad : splitFactor (3/5) (_distance_tesseroid_point cePN ceWL)
      (_tesseroid_dimensions ceWL).2.2 = 1 := by
    rw [hdrad]
    exact accept_of_ge (by norm_num) (by norm_num) ce_low_N_WL
  simp only [adaptiveStep, ceBN_slot0, flon, flat, frad]
  norm_num

theorem ceN_step6 :
    adaptiveStep cePN (3/5) 8 32 true ⟨ceStackBN, -1, Function.update (Function.update (Function.update (Function.update ((fun _ => default)) 0 ceEH) 1 ceEL) 2 ceWH) 3 ceWL, 4⟩ =
    .finished ⟨4, 0, ceStackBN, Function.update (Function.update (Function.update (Function.update ((fun _ => default)) 0 ceEH) 1 ceEL) 2 ceWH) 3 ceWL⟩ := by
  simp only [adaptiveStep]
  norm_num

theorem ceF_run :
    _adaptive_discretization cePF ceT (3/5) 8 32 (fun _ => default)
      (fun _ => default) true = some ⟨5, 0, ceStackF2, Function.update (Function.update (Function.update (Function.update (Function.update ((fun _ => default)) 0 ceEHH) 1 ceEHL) 2 ceWHH) 3 ceWHL) 4 ceLow⟩ := by
  unfold _adaptive_discretization
  rw [show (Function.update (fun _ => default) 0 ceT : ℤ → Tesseroid) = ceStack0
    from rfl]
  rw [show (2 * 32 + 8 + 2 : ℕ) = 73 + 1 from rfl,
    adaptiveLoop_succ_next ceF_step1,
    show (73 : ℕ) = 72 + 1 from rfl,
    adaptiveLoop_succ_next ceF_step2,
    show (72 : ℕ) = 71 + 1 from rfl,
    adaptiveLoop_succ_next ceF_step3,
    show (71 : ℕ) = 70 + 1 from rfl,
    adaptiveLoop_succ_next ceF_step4,
    show (70 : ℕ) = 69 + 1 from rfl,
    adaptiveLoop_succ_next ceF_step5,
    show (69 : ℕ) = 68 + 1 from rfl,
    adaptiveLoop_succ_next ceF_step6,
    show (68 : ℕ) = 67 + 1 from rfl,
    adaptiveLoop_succ_next ceF_step7,
    show (67 : ℕ) = 66 + 1 from rfl,
    adaptiveLoop_succ_finished ceF_step8]

theorem ceB_run :
    _adaptive_discretization cePF ceT (5/8) 8 32 (fun _ => default)
      (fun _ => default) true = some ⟨4, 0, ceStackBN, Function.update (Function.update (Function.update (Function.update ((fun _ => default)) 0 ceEH) 1 ceEL) 2 ceWH) 3 ceWL⟩ := by
  unfold _adaptive_discretization
  rw [show (Function.update (fun _ => default) 0 ceT : ℤ → Tesseroid) = ceStack0
    from rfl]
  rw [show (2 * 32 + 8 + 2 : ℕ) = 73 + 1 from rfl,
    adaptiveLoop_succ_next ceB_step1,
    show (73 : ℕ) = 72 + 1 from rfl,
    adaptiveLoop_succ_next ceB_step2,
    show (72 : ℕ) = 71 + 1 from rfl,
    adaptiveLoop_succ_next ceB_step3,
    show (71 : ℕ) = 70 + 1 from rfl,
    adaptiveLoop_succ_next ceB_step4,
    show (70 : ℕ) = 69 + 1 from rfl,
    adaptiveLoop_succ_next ceB_step5,
    show (69 : ℕ) = 68 + 1 from rfl,
    adaptiveLoop_succ_finished ceB_step6]

theorem ceN_run :
    _adaptive_discretization cePN ceT (3/5) 8 32 (fun _ => default)
      (fun _ => default) true = some ⟨4, 0, ceStackBN, Function.update (Function.update (Function.update (Function.update ((fun _ => default)) 0 ceEH) 1 ceEL) 2 ceWH) 3 ceWL⟩ := by
  unfold _adaptive_discretization
  rw [show (Function.update (fun _ => default) 0 ceT : ℤ → Tesseroid) = ceStack0
    from rfl]
  rw [show (2 * 32 + 8 + 2 : ℕ) = 73 + 1 from rfl,
    adaptiveLoop_succ_next ceN_step1,
    show (73 : ℕ) = 72 + 1 from rfl,
    adaptiveLoop_succ_next ceN_step2,
    show (72 : ℕ) = 71 + 1 from rfl,
    adaptiveLoop_succ_next ceN_step3,
    show (71 : ℕ) = 70 + 1 from rfl,
    adaptiveLoop_succ_next ceN_step4,
    show (70 : ℕ) = 69 + 1 from rfl,
    adaptiveLoop_succ_next ceN_step5,
    show (69 : ℕ) = 68 + 1 from rfl,
    adaptiveLoop_succ_finished ceN_step6]

/-- C6 counterexample: for the tesseroid `(0,8,-1/8,1/8,539/640,1)`
observed from `(4,0,161/160)` in 3D mode, raising `distance_size_ratio`
from `3/5` to `5/8` *decreases* `n_splits` from 5 to 4, refuting the
claimed monotonicity in the ratio. -/
theorem c6_counterexample :
    (3/5 : ℝ) < 5/8 ∧
    (_adaptive_discretization cePF ceT (3/5) 8 32 (fun _ => default)
        (fun _ => default) true).map (fun r => (r.nSplits, r.errorCode)) =
      some (5, 0) ∧
    (_adaptive_discretization cePF ceT (5/8) 8 32 (fun _ => default)
        (fun _ => default) true).map (fun r => (r.nSplits, r.errorCode)) =
      some (4, 0) ∧
    (4 : ℕ) < 5 := by
  refine ⟨by norm_num, ?_, ?_, by norm_num⟩
  · rw [ceF_run]
    rfl
  · rw [ceB_run]
    rfl

/-- C5 counterexample: for the same tesseroid and ratio `3/5` in 3D mode,
moving the observation point radially outward from `641/640` to
`161/160` (both above the tesseroid's top radius 1, same longitude and
latitude) *increases* `n_splits` from 4 to 5, refuting the claimed
monotonicity in the radius. -/
theorem c5_counterexample :
    cePN.lon = cePF.lon ∧ cePN.lat = cePF.lat ∧
    ceT.top < cePN.radius ∧ cePN.radius < cePF.radius ∧
    (_adaptive_discretization cePN ceT (3/5) 8 32 (fun _ => default)
        (fun _ => default) true).map (fun r => (r.nSplits, r.errorCode)) =
      some (4, 0) ∧
    (_adaptive_discretization cePF ceT (3/5) 8 32 (fun _ => default)
        (fun _ => default) true).map (fun r => (r.nSplits, r.errorCode)) =
      some (5, 0) ∧
    (4 : ℕ) < 5 := by
  refine ⟨rfl, rfl, by norm_num [ceT, cePN], by norm_num [cePN, cePF], ?_, ?_,
    by norm_num⟩
  · rw [ceN_run]
    rfl
  · rw [ceF_run]
    rfl
